import Mathlib

/-!
# star-db-query-builder: verification of the condition compiler, repository
# builders and resilience layer

Shallow embedding of the query-construction core of the
`@starbemtech/star-db-query-builder` package:

* `createWhereClause` and its clause helpers (src/src/core/utils.ts; the
  legacy copy in src/src/default/utils.ts is byte-identical except that it
  lacks the NOT EXISTS branch of `processCondition`),
* the SQL-text builders of the generic repository
  (src/src/core/repository.ts and src/src/default/genericRepository.ts,
  which agree on everything modelled here),
* the retry wrapper and transaction lifecycle of the execution clients
  (src/src/db/pgClient.ts, src/src/db/mysqlClient.ts).

JavaScript runtime values are modelled by the inductive type `JsVal`;
JavaScript objects are ordered association lists (insertion order is
`Object.entries` / `Object.keys` order), `undefined` is `Option.none`.
-/

set_option autoImplicit false

namespace StarDB

/-- JavaScript runtime values as they flow through the condition compiler:
strings, numbers, booleans, null, arrays and plain objects (ordered field
lists). `undefined` is represented by `Option.none` at use sites. -/
inductive JsVal : Type where
  | vstr : String → JsVal
  | vnum : Int → JsVal
  | vbool : Bool → JsVal
  | vnull : JsVal
  | varr : List JsVal → JsVal
  | vobj : List (String × JsVal) → JsVal
deriving Repr, Inhabited

/-- JavaScript truthiness: `''`, `0`, `false`, `null` (and `undefined`,
which is `none` at use sites) are falsy; arrays and objects are always
truthy. -/
def truthy : JsVal → Bool
  | .vstr s => s ≠ ""
  | .vnum n => n ≠ 0
  | .vbool b => b
  | .vnull => false
  | .varr _ => true
  | .vobj _ => true

/-- Truthiness of a possibly-`undefined` value. -/
def truthyOpt : Option JsVal → Bool
  | some v => truthy v
  | none => false

/-- JavaScript `x || y`. -/
def jsOr (a b : Option JsVal) : Option JsVal :=
  if truthyOpt a then a else b

/-- `typeof v === 'string'` projection. -/
def asStr : JsVal → Option String
  | .vstr s => some s
  | _ => none

/-- The `'k' in obj` test on an object's field list. -/
def hasKey (fields : List (String × JsVal)) (k : String) : Bool :=
  (List.lookup k fields).isSome

/-- Whether `pat` is a prefix of the character list. -/
def startsWithChars : List Char → List Char → Bool
  | _, [] => true
  | [], _ :: _ => false
  | c :: cs, p :: ps => c == p && startsWithChars cs ps

/-- Whether `pat` occurs in the character list (at any position, the empty
pattern always occurs). -/
def includesChars (pat : List Char) : List Char → Bool
  | [] => startsWithChars [] pat
  | c :: cs => startsWithChars (c :: cs) pat || includesChars pat cs

/-- JS `String.prototype.includes`. -/
def strIncludes (s pat : String) : Bool :=
  includesChars pat.data s.data

/-- Replace the first occurrence of `pat` in a character list by `rep`
(the list is unchanged when `pat` does not occur). -/
def replaceFirstChars (pat rep : List Char) : List Char → List Char
  | [] => if startsWithChars [] pat then rep else []
  | c :: cs =>
    if startsWithChars (c :: cs) pat then rep ++ (c :: cs).drop pat.length
    else c :: replaceFirstChars pat rep cs

/-- JS `String.prototype.replace` with a string pattern: replaces only the
first occurrence. -/
def replaceFirst (s pat rep : String) : String :=
  ⟨replaceFirstChars pat.data rep.data s.data⟩

/-- The two supported engines (`DBClients` in src/src/core/types.ts). -/
inductive DBClients : Type where
  | pg
  | mysql
deriving Repr, DecidableEq

/-- `pgPlaceholderGenerator` from src/src/core/utils.ts. -/
def pgPlaceholderGenerator (index : Nat) : String :=
  "$" ++ toString index

/-- `mysqlPlaceholderGenerator` from src/src/core/utils.ts. -/
def mysqlPlaceholderGenerator : String :=
  "?"

/-- `arrayToStringWithQuotes` from src/src/core/utils.ts (both branches of
its ternary produce the bare item, so the client type is unused). -/
def arrayToStringWithQuotes (items : List String) (_clientType : DBClients) : String :=
  String.intercalate ", " items

/-- `createSelectFields` from src/src/core/utils.ts. -/
def createSelectFields (fields : List String) (clientType : DBClients) : String :=
  if fields.isEmpty then "*" else arrayToStringWithQuotes fields clientType

/-- `generatePlaceholders` from src/src/core/utils.ts. -/
def generatePlaceholders (keys : List String) (clientType : DBClients) : String :=
  String.intercalate ", "
    (keys.mapIdx fun index _ =>
      match clientType with
      | .pg => "$" ++ toString (index + 1)
      | .mysql => "?")

/-- `generateSetClause` from src/src/core/utils.ts. -/
def generateSetClause (keys : List String) (clientType : DBClients) : String :=
  String.intercalate ", "
    (keys.mapIdx fun index key =>
      match clientType with
      | .pg => key ++ " = $" ++ toString (index + 1)
      | .mysql => key ++ " = ?")

/-- One entry of an `OrderBy` array. -/
structure OrderByItem : Type where
  field : String
  direction : String
deriving Repr, DecidableEq

/-- `createOrderByClause` from src/src/core/utils.ts. -/
def createOrderByClause (orderBy : List OrderByItem) : String :=
  if orderBy.isEmpty then ""
  else " ORDER BY " ++ String.intercalate ", " (orderBy.map fun o => o.field ++ " " ++ o.direction)

/-- `createGroupByClause` from src/src/core/utils.ts. -/
def createGroupByClause (groupBy : List String) : String :=
  if groupBy.isEmpty then "" else " GROUP BY " ++ String.intercalate ", " groupBy

/-- `createLimitClause` from src/src/core/utils.ts (`!limit` is true for 0). -/
def createLimitClause : Option Nat → String
  | none => ""
  | some l => if l = 0 then "" else " LIMIT " ++ toString l

/-- `createOffsetClause` from src/src/core/utils.ts. -/
def createOffsetClause : Option Nat → String
  | none => ""
  | some o => if o = 0 then "" else " OFFSET " ++ toString o

/-- The mutable state threaded through `createWhereClause`: the running
placeholder index, the accumulated `whereParts` and the accumulated
parameter `values`. -/
structure WhereState : Type where
  index : Nat
  whereParts : List String
  values : List JsVal
deriving Repr

/-- The placeholder list built by `value.map(() => clientType === 'pg' ?
pgPlaceholderGenerator(index++) : mysqlPlaceholderGenerator())`: one
placeholder per array element; only the pg generator advances the index. -/
def arrayPlaceholders (clientType : DBClients) : List JsVal → Nat → List String × Nat
  | [], i => ([], i)
  | _ :: rest, i =>
    match clientType with
    | .pg =>
      let r := arrayPlaceholders clientType rest (i + 1)
      (pgPlaceholderGenerator i :: r.1, r.2)
    | .mysql =>
      let r := arrayPlaceholders clientType rest i
      (mysqlPlaceholderGenerator :: r.1, r.2)

/-- `processCondition` from `createWhereClause` (src/src/core/utils.ts,
lines 167-218).  A leaf is an object carrying `operator` and `value`
fields; anything else (arrays, null, scalars, objects without those keys)
is ignored.  The `operator` is a string by the `OperatorCondition` type. -/
def processCondition (clientType : DBClients) (unaccent : Bool) (key : String)
    (condition : JsVal) (st : WhereState) : WhereState :=
  match condition with
  | .vobj fields =>
    match List.lookup "operator" fields, List.lookup "value" fields with
    | some (.vstr operator), some value =>
      match (if operator = "NOT EXISTS" then asStr value else none) with
      | some sub =>
        { st with whereParts := st.whereParts ++ ["NOT EXISTS (" ++ sub ++ ")"] }
      | none =>
        if strIncludes operator "NULL" then
          { st with whereParts := st.whereParts ++ [key ++ " " ++ operator] }
        else
          match value with
          | .varr elems =>
            let pr := arrayPlaceholders clientType elems st.index
            let placeholders := String.intercalate ", " pr.1
            let part :=
              if operator = "BETWEEN" then
                key ++ " " ++ operator ++ " " ++ replaceFirst placeholders ", " " AND "
              else if operator = "IN" then
                key ++ " " ++ operator ++ " (" ++ placeholders ++ ")"
              else
                key ++ " " ++ operator ++ " (" ++ placeholders ++ ")"
            ⟨pr.2, st.whereParts ++ [part], st.values ++ elems⟩
          | _ =>
            let part :=
              if unaccent && clientType == .pg then
                if operator.toUpper = "ILIKE" then
                  "unaccent(" ++ key ++ "::text) ILIKE unaccent(" ++
                    pgPlaceholderGenerator st.index ++ ")"
                else
                  "unaccent(" ++ key ++ "::text) " ++ operator ++ " unaccent(" ++
                    pgPlaceholderGenerator st.index ++ ")"
              else
                match clientType with
                | .pg => key ++ " " ++ operator ++ " " ++ pgPlaceholderGenerator st.index
                | .mysql => key ++ " " ++ operator ++ " " ++ mysqlPlaceholderGenerator
            ⟨st.index + 1, st.whereParts ++ [part], st.values ++ [value]⟩
    | _, _ => st
  | _ => st

/-- `whereParts.pop()`: removes and returns the last accumulated part. -/
def popPart (st : WhereState) : WhereState × Option String :=
  ({ st with whereParts := st.whereParts.dropLast }, st.whereParts.getLast?)

/-- One step of the `compositeConditions.map(...)` callback shared by the
JOINS and OR/AND blocks of `createWhereClause`: a plain object contributes
`processCondition` on its first key followed by `whereParts.pop()` (an
empty object makes `processCondition` a no-op on an `undefined` key and
condition, but the pop still runs); anything else maps to `''`. -/
def processSub (clientType : DBClients) (unaccent : Bool) (st : WhereState) :
    JsVal → WhereState × Option String
  | .vobj [] => popPart st
  | .vobj ((k, c) :: _) => popPart (processCondition clientType unaccent k c st)
  | _ => (st, some "")

/-- The full `compositeConditions.map(...)` pass, collecting the raw map
results in order (before the `.filter((part) => part)`). -/
def processSubList (clientType : DBClients) (unaccent : Bool) :
    List JsVal → WhereState → WhereState × List (Option String)
  | [], st => (st, [])
  | sub :: rest, st =>
    let r1 := processSub clientType unaccent st sub
    let r2 := processSubList clientType unaccent rest r1.1
    (r2.1, r1.2 :: r2.2)

/-- `.filter((part) => part)`: drops `undefined` and `''`. -/
def keepTruthy (parts : List (Option String)) : List String :=
  parts.filterMap fun p =>
    match p with
    | some s => if s = "" then none else some s
    | none => none

/-- The shared body of the JOINS and OR/AND composite blocks of
`createWhereClause`: map the sub-conditions, filter the falsy results and
push one parenthesized group joined by the logical operator. -/
def processComposite (clientType : DBClients) (unaccent : Bool) (logicalOperator : String)
    (subs : List JsVal) (st : WhereState) : WhereState :=
  let r := processSubList clientType unaccent subs st
  let subWhereParts := keepTruthy r.2
  { r.1 with
    whereParts := r.1.whereParts ++
      ["(" ++ String.intercalate (" " ++ logicalOperator ++ " ") subWhereParts ++ ")"] }

/-- The first phase of `createWhereClause`: with a `JOINS` key only that
key is handled (top-level leaves are skipped); otherwise every entry runs
through `processCondition`. -/
def processJoinsBlock (clientType : DBClients) (unaccent : Bool)
    (conditions : List (String × JsVal)) (st : WhereState) : WhereState :=
  if hasKey conditions "JOINS" then
    let logicalOperator := if truthyOpt (List.lookup "JOINS" conditions) then "AND" else "OR"
    match List.lookup "JOINS" conditions with
    | some (.varr subs) => processComposite clientType unaccent logicalOperator subs st
    | _ => st
  else
    conditions.foldl (fun st kv => processCondition clientType unaccent kv.1 kv.2 st) st

/-- The second phase of `createWhereClause`: an `OR`/`AND` key appends one
composite group (`conditions.OR || conditions.AND`). -/
def processOrAndBlock (clientType : DBClients) (unaccent : Bool)
    (conditions : List (String × JsVal)) (st : WhereState) : WhereState :=
  if hasKey conditions "OR" || hasKey conditions "AND" then
    let logicalOperator := if truthyOpt (List.lookup "OR" conditions) then "OR" else "AND"
    match jsOr (List.lookup "OR" conditions) (List.lookup "AND" conditions) with
    | some (.varr subs) => processComposite clientType unaccent logicalOperator subs st
    | _ => st
  else st

/-- `createWhereClause` from src/src/core/utils.ts (lines 157-280): returns
the clause text, the ordered parameter list and the next placeholder
index. -/
def createWhereClause (conditions : List (String × JsVal)) (startIndex : Nat)
    (clientType : DBClients) (unaccent : Bool) : String × List JsVal × Nat :=
  let st0 : WhereState := ⟨startIndex, [], []⟩
  let st1 := processJoinsBlock clientType unaccent conditions st0
  let st2 := processOrAndBlock clientType unaccent conditions st1
  (if st2.whereParts.isEmpty then ""
   else " WHERE " ++ String.intercalate " AND " st2.whereParts,
   st2.values, st2.index)

/-! ## Generic repository query builders (src/src/core/repository.ts; the
legacy src/src/default/genericRepository.ts builds identical SQL for every
operation modelled here). Each builder returns the SQL text and the
parameter list handed to `dbClient.query`. -/

/-- The `findFirst` template literal (whitespace exactly as in the source):
a where fragment of length 7 or less (`' WHERE '` itself is 7 characters)
is replaced by the empty string. -/
def findFirstSql (fields tableName whereClause groupByClause orderByClause : String) : String :=
  "SELECT " ++ fields ++ " FROM " ++ tableName ++ "\n      " ++
    (if whereClause.length > 7 then whereClause else "") ++ "\n      " ++
    groupByClause ++ "\n      " ++ orderByClause ++ "\n      "

/-- `findFirst`: SELECT text and bound parameters (unaccent is not passed
through in the source, so the compiler runs with it off). -/
def findFirstQuery (tableName : String) (select : List String)
    (whereConds : List (String × JsVal)) (groupBy : List String)
    (orderBy : List OrderByItem) (clientType : DBClients) : String × List JsVal :=
  let fields := createSelectFields select clientType
  let wc := createWhereClause whereConds 1 clientType false
  (findFirstSql fields tableName wc.1 (createGroupByClause groupBy)
    (createOrderByClause orderBy), wc.2.1)

/-- The `findMany` template literal (whitespace exactly as in the source). -/
def findManySql (fields tableName whereClause groupByClause orderByClause limitClause offsetClause : String) : String :=
  "SELECT " ++ fields ++ " FROM " ++ tableName ++ "\n      " ++
    (if whereClause.length > 7 then whereClause else "") ++ "\n      " ++
    groupByClause ++ "\n      " ++ orderByClause ++ "\n      " ++
    limitClause ++ "\n      " ++ offsetClause ++ "\n    "

/-- `findMany`: SELECT text and bound parameters. -/
def findManyQuery (tableName : String) (select : List String)
    (whereConds : List (String × JsVal)) (groupBy : List String)
    (orderBy : List OrderByItem) (limit offset : Option Nat)
    (clientType : DBClients) (unaccent : Bool) : String × List JsVal :=
  let fields := createSelectFields select clientType
  let wc := createWhereClause whereConds 1 clientType unaccent
  (findManySql fields tableName wc.1 (createGroupByClause groupBy)
    (createOrderByClause orderBy) (createLimitClause limit) (createOffsetClause offset),
   wc.2.1)

/-- `insert`: the INSERT text and parameter list.  The fresh identifier
(`uuid()`) and the timestamp (`new Date()`) are generated client-side and
travel in the parameter list, never in the text. -/
def insertQuery (tableName : String) (generatedUUID : String) (nowTs : JsVal)
    (data : List (String × JsVal)) (clientType : DBClients)
    (returning : List String) : String × List JsVal :=
  let keys0 := data.map Prod.fst
  let keys :=
    match clientType with
    | .pg => keys0.map fun key => if key = "authorization" then "\"" ++ key ++ "\"" else key
    | .mysql => keys0
  let values := data.map Prod.snd
  let allKeys := "id" :: keys ++ ["updated_at"]
  let allValues := JsVal.vstr generatedUUID :: values ++ [nowTs]
  let placeholders := generatePlaceholders allKeys clientType
  let query := "INSERT INTO " ++ tableName ++ " (" ++ String.intercalate ", " allKeys ++
    ") VALUES (" ++ placeholders ++ ")"
  let query :=
    match clientType with
    | .pg =>
      if returning.isEmpty then query
      else query ++ " RETURNING " ++ createSelectFields returning clientType
    | .mysql => query
  (query, allValues)

/-- `insertMany`: the multi-row INSERT text, the flattened parameter list
and the client-generated identifiers (`uuidGen i` is the uuid drawn for row
`i`).  Row `i` uses placeholder indices `i*allKeys.length+1 ..`. -/
def insertManyQuery (tableName : String) (uuidGen : Nat → String) (nowTs : JsVal)
    (data : List (List (String × JsVal))) (clientType : DBClients)
    (returning : List String) : String × List JsVal × List String :=
  let firstItem := data.headD []
  let keys0 := firstItem.map Prod.fst
  let keys :=
    match clientType with
    | .pg => keys0.map fun key => if key = "authorization" then "\"" ++ key ++ "\"" else key
    | .mysql => keys0
  let allKeys := "id" :: keys ++ ["updated_at"]
  let generatedIds := (List.range data.length).map uuidGen
  let allValues :=
    ((data.zip generatedIds).map fun rg =>
      JsVal.vstr rg.2 :: rg.1.map Prod.snd ++ [nowTs]).flatten
  let valueRows := (List.range data.length).map fun rowIndex =>
    match clientType with
    | .pg =>
      "(" ++ String.intercalate ", "
        (allKeys.mapIdx fun index _ => "$" ++ toString (rowIndex * allKeys.length + 1 + index)) ++ ")"
    | .mysql =>
      "(" ++ String.intercalate ", " (allKeys.map fun _ => "?") ++ ")"
  let query := "INSERT INTO " ++ tableName ++ " (" ++ String.intercalate ", " allKeys ++
    ") VALUES " ++ String.intercalate ", " valueRows
  let query :=
    match clientType with
    | .pg =>
      if returning.isEmpty then query
      else query ++ " RETURNING " ++ createSelectFields returning clientType
    | .mysql => query
  (query, allValues, generatedIds)

/-- The follow-up SELECT of `insertMany` on the mysql path: one `?` per
generated id in both the `IN` list and the `ORDER BY FIELD` list, the ids
passed twice as parameters. -/
def insertManySelectMysql (tableName : String) (returning : List String)
    (generatedIds : List String) : String × List JsVal :=
  let placeholders := String.intercalate ", " (generatedIds.map fun _ => "?")
  ("SELECT " ++ (if returning.isEmpty then "*" else createSelectFields returning .mysql) ++
     " FROM " ++ tableName ++
     "\n        WHERE id IN (" ++ placeholders ++ ")\n        ORDER BY FIELD(id, " ++
     placeholders ++ ")\n      ",
   (generatedIds ++ generatedIds).map JsVal.vstr)

/-- `update`: the UPDATE text and parameter list.  The SET clause binds the
data values; the target row id is spliced into the text as a quoted
literal (`WHERE id = '${id}'`). -/
def updateQuery (tableName : String) (id : String) (data : List (String × JsVal))
    (clientType : DBClients) (returning : List String) : String × List JsVal :=
  let keys := data.map Prod.fst
  let values := data.map Prod.snd
  let setClause := generateSetClause keys clientType
  let query := "UPDATE " ++ tableName ++ " SET " ++ setClause ++ " WHERE id = '" ++ id ++ "'"
  let query :=
    match clientType with
    | .pg =>
      if returning.isEmpty then query
      else query ++ " RETURNING " ++ createSelectFields returning clientType
    | .mysql => query
  (query, values)

/-- `updateMany`: SET placeholders take indices `1..values.length`; the
WHERE compilation continues from `values.length + 1`. -/
def updateManyQuery (tableName : String) (data : List (String × JsVal))
    (whereConds : List (String × JsVal)) (clientType : DBClients)
    (returning : List String) : String × List JsVal :=
  let keys := data.map Prod.fst
  let values := data.map Prod.snd
  let setClause := String.intercalate ", "
    (keys.mapIdx fun index key =>
      match clientType with
      | .pg => key ++ " = $" ++ toString (index + 1)
      | .mysql => key ++ " = ?")
  let wc := createWhereClause whereConds (values.length + 1) clientType false
  let query := "UPDATE " ++ tableName ++ " SET " ++ setClause ++ " " ++ wc.1
  let query :=
    match clientType with
    | .pg =>
      if returning.isEmpty then query
      else query ++ " RETURNING " ++ createSelectFields returning clientType
    | .mysql => query
  (query, values ++ wc.2.1)

/-- `deleteOne`: soft delete mutates `status`, hard delete issues DELETE;
the id is always the single bound parameter. -/
def deleteOneQuery (tableName : String) (id : String) (clientType : DBClients)
    (permanently : Bool) : String × List JsVal :=
  let ph := match clientType with | .pg => "$1" | .mysql => "?"
  (if permanently then "DELETE FROM " ++ tableName ++ " WHERE id = " ++ ph
   else "UPDATE " ++ tableName ++ " SET status = 'deleted' WHERE id = " ++ ph,
   [JsVal.vstr id])

/-- `deleteMany`: one placeholder per id over an arbitrary unique field. -/
def deleteManyQuery (tableName : String) (ids : List String) (field : String)
    (clientType : DBClients) (permanently : Bool) : String × List JsVal :=
  let placeholders :=
    match clientType with
    | .pg => String.intercalate ", " (ids.mapIdx fun index _ => "$" ++ toString (index + 1))
    | .mysql => String.intercalate ", " (ids.map fun _ => "?")
  (if permanently then
     "DELETE FROM " ++ tableName ++ " WHERE " ++ field ++ " IN (" ++ placeholders ++ ")"
   else
     "UPDATE " ++ tableName ++ " SET status = 'deleted' WHERE " ++ field ++
       " IN (" ++ placeholders ++ ")",
   ids.map JsVal.vstr)

/-- One `JoinClause` of the `joins` operation; the ON predicate is passed
verbatim (documented trust boundary). -/
structure JoinClause : Type where
  type : String
  table : String
  «on» : String
deriving Repr

/-- `joins` + `buildQuery`: fixed clause order
SELECT, FROM, JOIN, WHERE, GROUP BY, ORDER BY, LIMIT, OFFSET.  In
`buildQuery` the select and groupBy slots are one-element arrays (always
truthy, coerced back to their single string), while the where, orderBy,
limit and offset slots are strings appended only when nonempty. -/
def joinsQuery (tableName : String) (select : List String) (joins : List JoinClause)
    (whereConds : List (String × JsVal)) (groupBy : List String)
    (orderBy : List OrderByItem) (limit offset : Option Nat)
    (clientType : DBClients) (unaccent : Bool) : String × List JsVal :=
  let selectFields := createSelectFields select clientType
  let wc := createWhereClause whereConds 1 clientType unaccent
  let q := "SELECT " ++ selectFields ++ " FROM " ++ tableName
  let q := q ++ String.join (joins.map fun j =>
    " " ++ j.type ++ " JOIN " ++ j.table ++ " ON " ++ j.«on»)
  let q := if wc.1 = "" then q else q ++ wc.1
  let q := q ++ createGroupByClause groupBy
  let q := if createOrderByClause orderBy = "" then q else q ++ createOrderByClause orderBy
  let q := if createLimitClause limit = "" then q else q ++ createLimitClause limit
  let q := if createOffsetClause offset = "" then q else q ++ createOffsetClause offset
  (q, wc.2.1)

/-! ## Resilient execution client (src/src/db/pgClient.ts and
src/src/db/mysqlClient.ts): retry classification and attempt counting. -/

/-- An execution error as the classifier sees it: the optional `code`
property. -/
structure QueryError : Type where
  code : Option String
deriving Repr, DecidableEq

/-- The fixed transient signatures of the pg client. -/
def pgTransientErrorCodes : List String :=
  ["ECONNRESET", "ETIMEDOUT", "ECONNREFUSED"]

/-- The fixed transient signatures of the mysql client. -/
def mysqlTransientErrorCodes : List String :=
  ["ECONNRESET", "ETIMEDOUT", "PROTOCOL_CONNECTION_LOST", "ECONNREFUSED"]

/-- `isTransientError`: `error && error.code && transientErrorCodes.has(error.code)`
(a missing or empty code is falsy, hence not transient). -/
def isTransientError (codes : List String) (e : QueryError) : Bool :=
  match e.code with
  | none => false
  | some c => c ≠ "" && codes.contains c

/-- What one attempt of the `promiseRetry` callback does: succeed, call
`retry(error)` (transient), or throw (permanent). -/
inductive AttemptOutcome (α : Type) : Type where
  | success : α → AttemptOutcome α
  | retrySignal : QueryError → AttemptOutcome α
  | thrown : QueryError → AttemptOutcome α

/-- Modelled from the spec: the retry driver (`promise-retry`, an external
dependency, not part of src/) invokes the operation with attempt numbers
1, 2, …; `retry(err)` re-runs it while retries remain and otherwise
rejects with that error; a thrown error rejects immediately.  Returns the
final result together with the number of attempts consumed starting at
`attempt` with `remaining` retries left. -/
def promiseRetryAux {α : Type} (op : Nat → AttemptOutcome α) :
    Nat → Nat → Except QueryError α × Nat
  | attempt, remaining =>
    match op attempt with
    | .success a => (.ok a, 1)
    | .thrown e => (.error e, 1)
    | .retrySignal e =>
      match remaining with
      | 0 => (.error e, 1)
      | r + 1 =>
        let rest := promiseRetryAux op (attempt + 1) r
        (rest.1, rest.2 + 1)

/-- `promiseRetry(op, { retries })`: attempts start at 1. -/
def promiseRetryRun {α : Type} (retries : Nat) (op : Nat → AttemptOutcome α) :
    Except QueryError α × Nat :=
  promiseRetryAux op 1 retries

/-- The `query` closure of both clients: run the pool call of the current
attempt; on failure, classify — transient errors are handed to `retry`,
anything else is re-thrown. -/
def clientQueryOp {α : Type} (codes : List String)
    (poolResult : Nat → Except QueryError α) (attempt : Nat) : AttemptOutcome α :=
  match poolResult attempt with
  | .ok rows => .success rows
  | .error e => if isTransientError codes e then .retrySignal e else .thrown e

/-- A non-transactional `client.query(sql, params)` under retry options
`{ retries }`: final result and total number of pool attempts. -/
def clientQueryRun {α : Type} (codes : List String) (retries : Nat)
    (poolResult : Nat → Except QueryError α) : Except QueryError α × Nat :=
  promiseRetryRun retries (clientQueryOp codes poolResult)

/-! ## Transaction lifecycle (src/src/db/pgClient.ts, `beginTransaction`,
lines 292-362): explicit event traces, so that connection releases can be
counted. -/

/-- Observable effects of the transaction code paths. -/
inductive TxEvent : Type where
  | connect
  | queryBegin
  | queryCommit
  | queryRollback
  | emitEvent
  | release
deriving Repr, DecidableEq

/-- `beginTransaction()`: `pool.connect()` then `BEGIN` inside
`try { ... } catch (error) { client.release(); throw error }` — a failed
BEGIN releases the freshly acquired connection and propagates. -/
def beginTransactionRun (beginFails : Bool) : Except Unit Unit × List TxEvent :=
  if beginFails then (.error (), [.connect, .queryBegin, .release])
  else (.ok (), [.connect, .queryBegin])

/-- `commit()`: `try { await client.query('COMMIT'); monitor.emit(...) }
finally { client.release() }` — the release runs whether or not COMMIT
throws. -/
def commitRun (commitFails : Bool) : Except Unit Unit × List TxEvent :=
  if commitFails then (.error (), [.queryCommit, .release])
  else (.ok (), [.queryCommit, .emitEvent, .release])

/-- `rollback()`: same `try/finally` shape as `commit()`. -/
def rollbackRun (rollbackFails : Bool) : Except Unit Unit × List TxEvent :=
  if rollbackFails then (.error (), [.queryRollback, .release])
  else (.ok (), [.queryRollback, .emitEvent, .release])

/-- How a transaction handle is finished. -/
inductive TxFinish : Type where
  | byCommit
  | byRollback
deriving Repr, DecidableEq

/-- A whole transaction lifetime: acquire + BEGIN, and, when BEGIN
succeeded, the closing commit or rollback (queries on the handle in
between touch the connection but never release it). -/
def txLifecycleTrace (beginFails : Bool) (finish : TxFinish) (finishFails : Bool) :
    List TxEvent :=
  let b := beginTransactionRun beginFails
  match b.1 with
  | .error _ => b.2
  | .ok _ =>
    b.2 ++ (match finish with
      | .byCommit => (commitRun finishFails).2
      | .byRollback => (rollbackRun finishFails).2)

/-- Number of `release` events in a trace. -/
def releaseCount (trace : List TxEvent) : Nat :=
  trace.countP fun e => e == TxEvent.release

/-! ## Semantics of the `insertMany` follow-up SELECT (mysql path):
`WHERE id IN (…) ORDER BY FIELD(id, …)`. -/

/-- A stored row, as far as the re-fetch is concerned. -/
structure TableRow : Type where
  id : String
  payload : List (String × JsVal)
deriving Repr

/-- MySQL `FIELD(x, e₁, …, eₙ)`: the 1-based position of the first match,
0 when absent. -/
def fieldPos : List String → String → Nat
  | [], _ => 0
  | y :: ys, x =>
    if x = y then 1
    else
      match fieldPos ys x with
      | 0 => 0
      | n => n + 1

/-- Evaluation of the emitted follow-up SELECT against a table state:
keep the rows whose id is in the generated-id list, ordered by their
`FIELD` position (rows with equal keys keep table order, as in a stable
sort; here every key group is collected in key order). -/
def evalInsertManySelect (generatedIds : List String) (table : List TableRow) :
    List TableRow :=
  let matched := table.filter fun r => generatedIds.contains r.id
  ((List.range generatedIds.length).map fun i =>
    matched.filter fun r => fieldPos generatedIds r.id == i + 1).flatten

/-! ## Specification-side notions used by the theorems: placeholder
counting, marker-free strings, value scrubbing and leaf shapes. -/

/-- Number of occurrences of a character in a string. -/
def countChar (m : Char) (s : String) : Nat :=
  s.data.count m

/-- The placeholder marker character of each dialect. -/
def placeholderMarker : DBClients → Char
  | .pg => '$'
  | .mysql => '?'

/-- A string free of the marker character. -/
def cleanStr (m : Char) (s : String) : Bool :=
  countChar m s == 0

mutual

/-- Every string occurring in the value (string payloads and object keys)
is free of the marker character. -/
def cleanVal (m : Char) : JsVal → Bool
  | .vstr s => cleanStr m s
  | .vnum _ => true
  | .vbool _ => true
  | .vnull => true
  | .varr xs => cleanValList m xs
  | .vobj fs => cleanValFields m fs

/-- `cleanVal` over a list of values. -/
def cleanValList (m : Char) : List JsVal → Bool
  | [] => true
  | x :: xs => cleanVal m x && cleanValList m xs

/-- `cleanVal` over object fields (keys included). -/
def cleanValFields (m : Char) : List (String × JsVal) → Bool
  | [] => true
  | kv :: fs => cleanStr m kv.1 && cleanVal m kv.2 && cleanValFields m fs

end

/-- `cleanVal` over a conditions object. -/
def cleanConds (m : Char) (conds : List (String × JsVal)) : Bool :=
  cleanValFields m conds

/-- Replace a bound value by `null`, keeping the shape the compiler looks
at: arrays keep their length, everything else collapses to `null`. -/
def scrubVal : JsVal → JsVal
  | .varr xs => .varr (xs.map fun _ => JsVal.vnull)
  | _ => .vnull

/-- Scrub the payload of every `value` field of a leaf object. -/
def scrubValueFields : List (String × JsVal) → List (String × JsVal) :=
  List.map fun kv => if kv.1 = "value" then (kv.1, scrubVal kv.2) else kv

/-- Scrub the bound value of a leaf condition.  A NOT EXISTS leaf with a
string value is left untouched: its subquery is part of the emitted text
(the documented trust boundary), not a bound value. -/
def scrubCondition : JsVal → JsVal
  | .vobj fields =>
    match List.lookup "operator" fields, List.lookup "value" fields with
    | some (.vstr op), some v =>
      if op = "NOT EXISTS" && (asStr v).isSome then .vobj fields
      else .vobj (scrubValueFields fields)
    | _, _ => .vobj fields
  | v => v

/-- Scrub a composite-group child: only the condition under its first key
is ever compiled. -/
def scrubSub : JsVal → JsVal
  | .vobj ((k, c) :: rest) => .vobj ((k, scrubCondition c) :: rest)
  | v => v

/-- Scrub a top-level entry: a composite array scrubs its children, any
other value is scrubbed as a leaf. -/
def scrubEntryVal : JsVal → JsVal
  | .varr subs => .varr (subs.map scrubSub)
  | v => scrubCondition v

/-- Scrub every bound value of a conditions object.  Two conditions
objects with the same scrub differ only in bound values. -/
def scrubConds (conds : List (String × JsVal)) : List (String × JsVal) :=
  conds.map fun kv => (kv.1, scrubEntryVal kv.2)

/-- `Array.isArray`. -/
def isArr : JsVal → Bool
  | .varr _ => true
  | _ => false

/-- The leaf shape `processCondition` accepts: an object with a string
`operator` and a `value` field. -/
def isLeafObj : JsVal → Bool
  | .vobj fields =>
    (match List.lookup "operator" fields with
     | some (.vstr _) => true
     | _ => false) && hasKey fields "value"
  | _ => false

/-- A composite-group child whose first field carries a leaf condition. -/
def isLeafSub : JsVal → Bool
  | .vobj ((_, c) :: _) => isLeafObj c
  | _ => false

/-- What `processCondition` appends, started from an empty state at a
given index: every run is this contribution appended to the incoming
state (`processCondition_append`). -/
def leafOut (clientType : DBClients) (unaccent : Bool) (key : String)
    (condition : JsVal) (i : Nat) : WhereState :=
  processCondition clientType unaccent key condition ⟨i, [], []⟩

/-- The part text of the scalar-comparison branch of `processCondition`. -/
def scalarPartFor (clientType : DBClients) (unaccent : Bool) (key operator : String)
    (i : Nat) : String :=
  if unaccent && (clientType == DBClients.pg) then
    (if operator.toUpper = "ILIKE" then
       "unaccent(" ++ key ++ "::text) ILIKE unaccent(" ++ pgPlaceholderGenerator i ++ ")"
     else
       "unaccent(" ++ key ++ "::text) " ++ operator ++ " unaccent(" ++
         pgPlaceholderGenerator i ++ ")")
  else
    match clientType with
    | .pg => key ++ " " ++ operator ++ " " ++ pgPlaceholderGenerator i
    | .mysql => key ++ " " ++ operator ++ " " ++ mysqlPlaceholderGenerator

/-- Total number of marker occurrences over a list of parts. -/
def partsCountSum (m : Char) (parts : List String) : Nat :=
  (parts.map (countChar m)).sum

/-- Marker occurrences of one raw map result (`undefined` counts 0). -/
def optPartCount (m : Char) : Option String → Nat
  | none => 0
  | some s => countChar m s

/-! # Theorems -/

/-! ## General helper lemmas -/

theorem intercalate_single (sep a : String) : String.intercalate sep [a] = a := rfl

theorem strAppend_assoc (a b c : String) : (a ++ b) ++ c = a ++ (b ++ c) := by
  cases a with
  | mk la =>
    cases b with
    | mk lb =>
      cases c with
      | mk lc =>
        show String.mk ((la ++ lb) ++ lc) = String.mk (la ++ (lb ++ lc))
        rw [List.append_assoc]

/-- C6: the documented example — `{OR: [{status: {'=', 'active'}},
{status: {'=', 'pending'}}]}` at start index 1 under the numbered
dialect compiles to exactly ` WHERE (status = $1 OR status = $2)`, with
parameters `['active', 'pending']` in that order and next index 3. -/
theorem or_group_example_compiles :
    createWhereClause
      [("OR", .varr
        [.vobj [("status", .vobj [("operator", .vstr "="), ("value", .vstr "active")])],
         .vobj [("status", .vobj [("operator", .vstr "="), ("value", .vstr "pending")])]])]
      1 .pg false
      = (" WHERE (status = $1 OR status = $2)",
         [.vstr "active", .vstr "pending"], 3) := rfl

/-- C2: across every path of a transaction lifetime — BEGIN failing, or a
successful BEGIN followed by commit or rollback, each of which may itself
throw — the dedicated connection is released exactly once; `commit` and
`rollback` release even when COMMIT/ROLLBACK throws, and a failed BEGIN
releases before the error propagates. -/
theorem transaction_release_exactly_once :
    (∀ (beginFails : Bool) (finish : TxFinish) (finishFails : Bool),
      releaseCount (txLifecycleTrace beginFails finish finishFails) = 1) ∧
    (∀ commitFails : Bool, releaseCount (commitRun commitFails).2 = 1 ∧
      ((commitRun commitFails).1 = .error () ↔ commitFails = true)) ∧
    (∀ rollbackFails : Bool, releaseCount (rollbackRun rollbackFails).2 = 1 ∧
      ((rollbackRun rollbackFails).1 = .error () ↔ rollbackFails = true)) ∧
    ((beginTransactionRun true).1 = .error () ∧
      releaseCount (beginTransactionRun true).2 = 1) := by
  refine ⟨fun b f g => ?_, fun c => ?_, fun r => ?_, by constructor <;> rfl⟩
  · cases b <;> cases f <;> cases g <;> rfl
  · cases c <;> exact ⟨rfl, by simp [commitRun]⟩
  · cases r <;> exact ⟨rfl, by simp [rollbackRun]⟩

/-- C7: a leaf whose operator is NOT EXISTS with a string value emits the
text `NOT EXISTS (<subquery>)` with the subquery verbatim, adds no
parameter and does not advance the index — both at the `processCondition`
level (hence also inside composite groups) and for a whole one-leaf
conditions object. -/
theorem not_exists_verbatim :
    (∀ (ct : DBClients) (un : Bool) (key sub : String) (st : WhereState),
      processCondition ct un key
        (.vobj [("operator", .vstr "NOT EXISTS"), ("value", .vstr sub)]) st
        = { st with whereParts := st.whereParts ++ ["NOT EXISTS (" ++ sub ++ ")"] }) ∧
    (∀ (ct : DBClients) (un : Bool) (key sub : String) (start : Nat),
      key ≠ "JOINS" → key ≠ "OR" → key ≠ "AND" →
      createWhereClause
        [(key, .vobj [("operator", .vstr "NOT EXISTS"), ("value", .vstr sub)])]
        start ct un
        = (" WHERE " ++ "NOT EXISTS (" ++ sub ++ ")", [], start)) := by
  constructor
  · intro ct un key sub st
    rfl
  · intro ct un key sub start h1 h2 h3
    have e1 : ("JOINS" == key) = false := by simp [h1.symm]
    have e2 : ("OR" == key) = false := by simp [h2.symm]
    have e3 : ("AND" == key) = false := by simp [h3.symm]
    simp [createWhereClause, processJoinsBlock, processOrAndBlock, hasKey, List.lookup,
      e1, e2, e3, processCondition, asStr, List.foldl, intercalate_single,
      ← strAppend_assoc]

/-- C4 counterexample: under the anonymous-placeholder dialect an `IN`
leaf with a two-element array emits two placeholders and two parameters
but does not advance the index, so `nextIndex - startIndex` (0) differs
from `params.length` (2). -/
theorem where_invariant_mysql_counterexample :
    createWhereClause
      [("tags", .vobj [("operator", .vstr "IN"), ("value", .varr [.vnum 1, .vnum 2])])]
      1 .mysql false
      = (" WHERE tags IN (?, ?)", [.vnum 1, .vnum 2], 1) ∧
    ¬ ((1 : Nat) - 1 = ([JsVal.vnum 1, JsVal.vnum 2] : List JsVal).length) :=
  ⟨rfl, by simp⟩

/-- C5 counterexample: an `IN` leaf with the non-array value 5 and a
`BETWEEN` leaf with a three-element array both compile to a clause — there
is no `MalformedCondition` failure anywhere in the compiler; the invalid
SQL text is emitted. -/
theorem malformed_condition_counterexample :
    createWhereClause [("tags", .vobj [("operator", .vstr "IN"), ("value", .vnum 5)])]
      1 .pg false
      = (" WHERE tags IN $1", [.vnum 5], 2) ∧
    createWhereClause
      [("a", .vobj [("operator", .vstr "BETWEEN"),
                    ("value", .varr [.vnum 1, .vnum 2, .vnum 3])])]
      1 .pg false
      = (" WHERE a BETWEEN $1 AND $2, $3", [.vnum 1, .vnum 2, .vnum 3], 4) :=
  ⟨rfl, rfl⟩

/-- C8 counterexample: with an implicit leaf and an explicit JOINS group,
the implicit leaf `a = 7` is dropped entirely — the compiled clause is
just the group, not the AND of the leaf and the group. -/
theorem joins_group_drops_implicit_counterexample :
    createWhereClause
      [("a", .vobj [("operator", .vstr "="), ("value", .vnum 7)]),
       ("JOINS", .varr [.vobj [("b", .vobj [("operator", .vstr "="), ("value", .vnum 8)])]])]
      1 .pg false
      = (" WHERE (b = $1)", [.vnum 8], 2) ∧
    strIncludes " WHERE (b = $1)" "a = " = false :=
  ⟨rfl, rfl⟩

/-- C1 counterexample: two `update` calls differing only in the id produce
different SQL texts — the id is spliced into the text
(`WHERE id = '<id>'`), not bound as a parameter. -/
theorem update_id_interpolated_counterexample :
    (updateQuery "users" "1" [("name", .vstr "x")] .pg []).1
      = "UPDATE users SET name = $1 WHERE id = '1'" ∧
    (updateQuery "users" "2" [("name", .vstr "x")] .pg []).1
      = "UPDATE users SET name = $1 WHERE id = '2'" ∧
    (updateQuery "users" "1" [("name", .vstr "x")] .pg []).1
      ≠ (updateQuery "users" "2" [("name", .vstr "x")] .pg []).1 := by
  refine ⟨rfl, rfl, ?_⟩
  decide

/-- C10: an empty conditions object compiles to the empty clause, no
parameters and an unchanged index, for both dialects; `findFirst` and
`findMany` suppress any where fragment of length 7 or less (` WHERE `
itself is exactly 7 characters), and with empty conditions their SELECT
texts contain no WHERE keyword at all. -/
theorem empty_conditions_no_where :
    (∀ (start : Nat) (ct : DBClients) (un : Bool),
      createWhereClause [] start ct un = ("", [], start)) ∧
    (∀ (fields tableName groupByClause orderByClause w : String), w.length ≤ 7 →
      findFirstSql fields tableName w groupByClause orderByClause
        = findFirstSql fields tableName "" groupByClause orderByClause) ∧
    (∀ (fields tableName groupByClause orderByClause limitClause offsetClause w : String),
      w.length ≤ 7 →
      findManySql fields tableName w groupByClause orderByClause limitClause offsetClause
        = findManySql fields tableName "" groupByClause orderByClause limitClause offsetClause) ∧
    (strIncludes (findFirstQuery "users" [] [] [] [] .pg).1 "WHERE" = false ∧
      strIncludes (findManyQuery "users" [] [] [] [] none none .mysql false).1 "WHERE" = false) := by
  refine ⟨fun start ct un => rfl, ?_, ?_, by constructor <;> rfl⟩
  · intro f t g o w hw
    have hng : ¬ (w.length > 7) := by omega
    simp [findFirstSql, hng]
  · intro f t g o l off w hw
    have hng : ¬ (w.length > 7) := by omega
    simp [findManySql, hng]

/-- Witness for C10 at concrete inputs: the fragment ` WHERE ` (length 7)
is itself suppressed. -/
theorem empty_conditions_no_where_witness :
    findFirstSql "*" "users" " WHERE " "" "" = findFirstSql "*" "users" "" "" "" ∧
    findManySql "*" "users" " WHERE " "" "" "" "" = findManySql "*" "users" "" "" "" "" "" :=
  ⟨empty_conditions_no_where.2.1 "*" "users" "" "" " WHERE " (by decide),
   empty_conditions_no_where.2.2.1 "*" "users" "" "" "" "" " WHERE " (by decide)⟩

/-- At most `remaining + 1` attempts are ever consumed. -/
theorem promiseRetryAux_attempts_le {α : Type} (op : Nat → AttemptOutcome α) :
    ∀ r attempt : Nat, (promiseRetryAux op attempt r).2 ≤ r + 1 := by
  intro r
  induction r with
  | zero =>
    intro attempt
    unfold promiseRetryAux
    cases op attempt <;> simp
  | succ n ih =>
    intro attempt
    unfold promiseRetryAux
    cases op attempt with
    | success a => simp
    | thrown e => simp
    | retrySignal e =>
      have := ih (attempt + 1)
      simp only []
      omega

/-- When every attempt asks for a retry, the budget is consumed whole and
the error of the final attempt surfaces. -/
theorem promiseRetryAux_all_transient {α : Type} (op : Nat → AttemptOutcome α)
    (errs : Nat → QueryError) (hop : ∀ k, op k = .retrySignal (errs k)) :
    ∀ r attempt : Nat,
      promiseRetryAux op attempt r = ((.error (errs (attempt + r)) : Except QueryError α), r + 1) := by
  intro r
  induction r with
  | zero =>
    intro attempt
    unfold promiseRetryAux
    rw [hop attempt]
    simp
  | succ n ih =>
    intro attempt
    unfold promiseRetryAux
    rw [hop attempt]
    have harith : attempt + 1 + n = attempt + (n + 1) := by omega
    simp only [ih (attempt + 1), harith]

/-- C3: a non-transient first error surfaces after exactly one attempt
under any retry budget; under `{retries: 3}` no execution ever makes more
than 4 attempts, and when every attempt fails transiently the 4th
attempt's error is the one surfaced. -/
theorem query_retry_classification_and_bound :
    (∀ (α : Type) (codes : List String) (retries : Nat)
        (poolResult : Nat → Except QueryError α) (e : QueryError),
      poolResult 1 = .error e → isTransientError codes e = false →
      clientQueryRun codes retries poolResult = (.error e, 1)) ∧
    (∀ (α : Type) (codes : List String) (poolResult : Nat → Except QueryError α),
      (clientQueryRun codes 3 poolResult).2 ≤ 4) ∧
    (∀ (α : Type) (codes : List String) (errs : Nat → QueryError),
      (∀ k, isTransientError codes (errs k) = true) →
      clientQueryRun codes 3 (fun k => (.error (errs k) : Except QueryError α))
        = (.error (errs 4), 4)) := by
  refine ⟨?_, ?_, ?_⟩
  · intro α codes retries pool e hp ht
    unfold clientQueryRun promiseRetryRun promiseRetryAux
    simp [clientQueryOp, hp, ht]
  · intro α codes pool
    exact promiseRetryAux_attempts_le _ 3 1
  · intro α codes errs h
    have hop : ∀ k,
        clientQueryOp codes (fun k => (.error (errs k) : Except QueryError α)) k
          = .retrySignal (errs k) := by
      intro k
      simp [clientQueryOp, h k]
    have := promiseRetryAux_all_transient _ errs hop 3 1
    simpa [clientQueryRun, promiseRetryRun] using this

/-- Witness for C3: a permanent pg error code makes one attempt; a
connection reset consumes all four attempts and surfaces. -/
theorem query_retry_classification_and_bound_witness :
    clientQueryRun pgTransientErrorCodes 3
      (fun _ => (.error ⟨some "42P01"⟩ : Except QueryError Nat)) = (.error ⟨some "42P01"⟩, 1) ∧
    (clientQueryRun mysqlTransientErrorCodes 3
      (fun _ => (.error ⟨some "ECONNRESET"⟩ : Except QueryError Nat))).2 ≤ 4 ∧
    clientQueryRun pgTransientErrorCodes 3
      (fun _ => (.error ⟨some "ECONNRESET"⟩ : Except QueryError Nat))
      = (.error ⟨some "ECONNRESET"⟩, 4) :=
  ⟨query_retry_classification_and_bound.1 Nat pgTransientErrorCodes 3 _ _ rfl (by decide),
   query_retry_classification_and_bound.2.1 Nat mysqlTransientErrorCodes _,
   query_retry_classification_and_bound.2.2 Nat pgTransientErrorCodes
     (fun _ => ⟨some "ECONNRESET"⟩) (fun _ => rfl)⟩

/-- Witness for C7 on a concrete subquery under the anonymous dialect. -/
theorem not_exists_verbatim_witness :
    createWhereClause
      [("deleted", .vobj [("operator", .vstr "NOT EXISTS"),
                          ("value", .vstr "SELECT 1 FROM t")])] 5 .mysql true
      = (" WHERE " ++ "NOT EXISTS (" ++ "SELECT 1 FROM t" ++ ")", [], 5) :=
  not_exists_verbatim.2 .mysql true "deleted" "SELECT 1 FROM t" 5
    (by decide) (by decide) (by decide)

/-- `FIELD` of the `i`-th element of a duplicate-free list is `i + 1`. -/
theorem fieldPos_get (ids : List String) (hnd : ids.Nodup) :
    ∀ (i : Nat) (hi : i < ids.length), fieldPos ids (ids.get ⟨i, hi⟩) = i + 1 := by
  induction ids with
  | nil => intro i hi; simp at hi
  | cons y ys ih =>
    intro i hi
    match i with
    | 0 => simp [fieldPos]
    | j + 1 =>
      have hj : j < ys.length := by simpa using hi
      have hymem : ys.get ⟨j, hj⟩ ∈ ys := List.get_mem ys j hj
      have hne : ys.get ⟨j, hj⟩ ≠ y := by
        intro hcontra
        exact (List.nodup_cons.mp hnd).1 (hcontra ▸ hymem)
      have hih := ih (List.nodup_cons.mp hnd).2 j hj
      have hstep : fieldPos (y :: ys) (ys.get ⟨j, hj⟩) = j + 1 + 1 := by
        rw [show fieldPos (y :: ys) (ys.get ⟨j, hj⟩)
              = if ys.get ⟨j, hj⟩ = y then 1
                else match fieldPos ys (ys.get ⟨j, hj⟩) with
                  | 0 => 0
                  | n => n + 1 from rfl]
        rw [if_neg hne, hih]
        rfl
      rw [show (y :: ys).get ⟨j + 1, hi⟩ = ys.get ⟨j, hj⟩ from rfl]
      exact hstep

/-- `FIELD` positions never exceed the list length. -/
theorem fieldPos_le (x : String) : ∀ ids : List String, fieldPos ids x ≤ ids.length := by
  intro ids
  induction ids with
  | nil => simp [fieldPos]
  | cons y ys ih =>
    by_cases hxy : x = y
    · have h1 : fieldPos (y :: ys) x = 1 := by
        rw [show fieldPos (y :: ys) x
              = if x = y then 1
                else match fieldPos ys x with
                  | 0 => 0
                  | n => n + 1 from rfl]
        rw [if_pos hxy]
      rw [h1, List.length_cons]
      omega
    · rw [show fieldPos (y :: ys) x
            = if x = y then 1
              else match fieldPos ys x with
                | 0 => 0
                | n => n + 1 from rfl]
      rw [if_neg hxy]
      cases hv : fieldPos ys x with
      | zero => simp
      | succ m =>
        rw [hv] at ih
        show m + 1 + 1 ≤ ys.length + 1
        omega

/-- A `FIELD` position `i + 1` pins the element down to the `i`-th one. -/
theorem fieldPos_eq_succ_imp (ids : List String) :
    ∀ (x : String) (i : Nat) (hi : i < ids.length),
      fieldPos ids x = i + 1 → x = ids.get ⟨i, hi⟩ := by
  induction ids with
  | nil => intro x i hi; simp at hi
  | cons y ys ih =>
    intro x i hi h
    by_cases hxy : x = y
    · subst hxy
      rw [show fieldPos (x :: ys) x
            = if x = x then 1
              else match fieldPos ys x with
                | 0 => 0
                | n => n + 1 from rfl] at h
      rw [if_pos rfl] at h
      have h0 : i = 0 := by omega
      subst h0
      rfl
    · rw [show fieldPos (y :: ys) x
            = if x = y then 1
              else match fieldPos ys x with
                | 0 => 0
                | n => n + 1 from rfl] at h
      rw [if_neg hxy] at h
      cases hv : fieldPos ys x with
      | zero =>
        rw [hv] at h
        simp at h
      | succ m =>
        rw [hv] at h
        have h2 : m + 1 + 1 = i + 1 := h
        have him : i = m + 1 := by omega
        subst him
        have hm : m < ys.length := by
          have hle := fieldPos_le x ys
          rw [hv] at hle
          omega
        have := ih x m hm hv
        simpa using this

theorem flatten_map_singleton {α β : Type} (l : List α) (g : α → β) :
    (l.map fun a => [g a]).flatten = l.map g := by
  induction l with
  | nil => rfl
  | cons a as ih => simp [ih]

theorem range_map_getD (d : String) : ∀ ids : List String,
    (List.range ids.length).map (fun i => ids.getD i d) = ids := by
  intro ids
  induction ids with
  | nil => rfl
  | cons y ys ih =>
    rw [List.length_cons, List.range_succ_eq_map, List.map_cons, List.map_map]
    have hcomp : ∀ i ∈ List.range ys.length,
        ((fun i => (y :: ys).getD i d) ∘ (· + 1)) i = ys.getD i d := by
      intro i _
      simp
    rw [List.map_congr_left hcomp, ih, List.getD_cons_zero]

/-- C9: the semantics of the emitted
`SELECT … WHERE id IN (…) ORDER BY FIELD(id, …)` re-fetch — when the
freshly generated ids are distinct and each matches exactly one stored
row, the i-th returned row is the row whose id is the i-th generated
identifier, i.e. the rows come back in input order. -/
theorem insertMany_reorders_to_input_order
    (generatedIds : List String) (table : List TableRow)
    (hnd : generatedIds.Nodup)
    (huniq : ∀ gid ∈ generatedIds, (table.filter fun r => r.id == gid).length = 1) :
    (evalInsertManySelect generatedIds table).map TableRow.id = generatedIds := by
  unfold evalInsertManySelect
  rw [List.map_flatten, List.map_map]
  have hbucket : ∀ i ∈ List.range generatedIds.length,
      (List.map TableRow.id ∘ fun i =>
        (table.filter fun r => generatedIds.contains r.id).filter
          fun r => fieldPos generatedIds r.id == i + 1) i
        = [generatedIds.getD i ""] := by
    intro i hi
    have hilt : i < generatedIds.length := List.mem_range.mp hi
    have hgd : generatedIds.getD i "" = generatedIds.get ⟨i, hilt⟩ := by
      simp [List.getD_eq_getElem?_getD, List.getElem?_eq_getElem hilt]
    simp only [Function.comp_apply]
    rw [List.filter_filter]
    have hmemg : generatedIds.get ⟨i, hilt⟩ ∈ generatedIds := List.get_mem generatedIds i hilt
    have hpred : ∀ r ∈ table,
        ((fieldPos generatedIds r.id == i + 1) && (generatedIds.contains r.id))
          = (r.id == generatedIds.get ⟨i, hilt⟩) := by
      intro r _
      by_cases heq : r.id = generatedIds.get ⟨i, hilt⟩
      · rw [heq]
        have hc : generatedIds.contains (generatedIds.get ⟨i, hilt⟩) = true := by
          rw [List.contains_iff_exists_mem_beq]
          exact ⟨_, hmemg, by simp⟩
        rw [hc]
        have hf := fieldPos_get generatedIds hnd i hilt
        simp only [List.get_eq_getElem] at hf
        simp [hf]
      · have hne : ¬ (fieldPos generatedIds r.id = i + 1) := fun hf =>
          heq (fieldPos_eq_succ_imp generatedIds r.id i hilt hf)
        have hb : (fieldPos generatedIds r.id == i + 1) = false := by
          simpa using hne
        rw [hb]
        simp only [Bool.false_and]
        have : (r.id == generatedIds.get ⟨i, hilt⟩) = false := by
          simpa using heq
        rw [this]
    rw [List.filter_congr hpred]
    obtain ⟨r, hr⟩ := List.length_eq_one.mp (huniq _ hmemg)
    rw [hr]
    have hrmem : r ∈ table.filter fun t => t.id == generatedIds.get ⟨i, hilt⟩ := by
      rw [hr]
      exact List.mem_singleton_self r
    have hrid : r.id = generatedIds.get ⟨i, hilt⟩ := by
      have := List.of_mem_filter hrmem
      simpa using this
    simp only [List.map_cons, List.map_nil]
    rw [hrid, hgd]
  rw [List.map_congr_left hbucket, flatten_map_singleton, range_map_getD]

/-- Witness for C9: two inserted rows stored in reversed physical order
come back in generation order. -/
theorem insertMany_reorders_witness :
    (evalInsertManySelect ["b", "a"]
      [⟨"a", []⟩, ⟨"x", []⟩, ⟨"b", []⟩]).map TableRow.id = ["b", "a"] :=
  insertMany_reorders_to_input_order ["b", "a"] [⟨"a", []⟩, ⟨"x", []⟩, ⟨"b", []⟩]
    (by decide) (by decide)

/-- A one-leaf conditions object whose key is none of the composite key
names compiles through `processCondition` alone. -/
theorem createWhereClause_single (key : String) (c : JsVal) (start : Nat)
    (ct : DBClients) (un : Bool)
    (h1 : key ≠ "JOINS") (h2 : key ≠ "OR") (h3 : key ≠ "AND") :
    createWhereClause [(key, c)] start ct un
      = ((processCondition ct un key c ⟨start, [], []⟩).whereParts.isEmpty.rec
          (" WHERE " ++ String.intercalate " AND "
            (processCondition ct un key c ⟨start, [], []⟩).whereParts) "",
         (processCondition ct un key c ⟨start, [], []⟩).values,
         (processCondition ct un key c ⟨start, [], []⟩).index) := by
  have e1 : ("JOINS" == key) = false := by simp [h1.symm]
  have e2 : ("OR" == key) = false := by simp [h2.symm]
  have e3 : ("AND" == key) = false := by simp [h3.symm]
  simp only [createWhereClause, processJoinsBlock, processOrAndBlock, hasKey,
    List.lookup, e1, e2, e3, List.foldl, Option.isSome_none, Bool.or_self,
    Bool.false_eq_true, if_false]
  cases hp : (processCondition ct un key c ⟨start, [], []⟩).whereParts.isEmpty <;> simp [hp]

/-- `arrayPlaceholders` advances the pg index by the array length and
never advances the mysql index; the emitted list has one placeholder per
element. -/
theorem arrayPlaceholders_spec :
    ∀ (elems : List JsVal) (i : Nat),
      (arrayPlaceholders .pg elems i).2 = i + elems.length ∧
      (arrayPlaceholders .mysql elems i).2 = i ∧
      (arrayPlaceholders .pg elems i).1.length = elems.length ∧
      (arrayPlaceholders .mysql elems i).1.length = elems.length := by
  intro elems
  induction elems with
  | nil => intro i; simp [arrayPlaceholders]
  | cons e es ih =>
    intro i
    have h1 := ih (i + 1)
    have h2 := ih i
    simp only [arrayPlaceholders, List.length_cons]
    refine ⟨?_, ?_, ?_, ?_⟩
    · rw [h1.1]; omega
    · exact h2.2.1
    · simp [h1.2.2.1]
    · simp [h2.2.2.2]

/-- C5 amended: compilation is total — there is no MalformedCondition
failure.  A set-operator leaf (IN, NOT IN, BETWEEN) with a non-array
value compiles like a scalar comparison: one placeholder, the value bound
as the single parameter, index advanced by 1.  A BETWEEN leaf with an
n-element array binds all n elements and (numbered dialect) advances the
index by n, emitting the n placeholders with only the first comma
replaced by AND — e.g. ` WHERE a BETWEEN $1 AND $2, $3` for three
elements — instead of failing. -/
theorem set_operator_total_compilation :
    (∀ (key op : String) (v : JsVal) (start : Nat) (ct : DBClients),
      op = "IN" ∨ op = "NOT IN" ∨ op = "BETWEEN" →
      isArr v = false →
      key ≠ "JOINS" → key ≠ "OR" → key ≠ "AND" →
      createWhereClause [(key, .vobj [("operator", .vstr op), ("value", v)])] start ct false
        = (" WHERE " ++ key ++ " " ++ op ++ " " ++
            (match ct with | .pg => "$" ++ toString start | .mysql => "?"),
           [v], start + 1)) ∧
    (∀ (key : String) (xs : List JsVal) (start : Nat),
      key ≠ "JOINS" → key ≠ "OR" → key ≠ "AND" →
      (createWhereClause
          [(key, .vobj [("operator", .vstr "BETWEEN"), ("value", .varr xs)])]
          start .pg false).2
        = (xs, start + xs.length)) ∧
    (createWhereClause
        [("a", .vobj [("operator", .vstr "BETWEEN"),
                      ("value", .varr [.vnum 1, .vnum 2, .vnum 3])])]
        1 .pg false).1
      = " WHERE a BETWEEN $1 AND $2, $3" := by
  refine ⟨?_, ?_, rfl⟩
  · intro key op v start ct hop hv h1 h2 h3
    rw [createWhereClause_single key _ start ct false h1 h2 h3]
    rcases hop with h | h | h <;> subst h <;> cases v <;> try simp [isArr] at hv
    all_goals cases ct <;>
      simp [processCondition, List.lookup, asStr,
        show strIncludes "IN" "NULL" = false from rfl,
        show strIncludes "NOT IN" "NULL" = false from rfl,
        show strIncludes "BETWEEN" "NULL" = false from rfl,
        pgPlaceholderGenerator, mysqlPlaceholderGenerator, intercalate_single,
        ← strAppend_assoc]
  · intro key xs start h1 h2 h3
    rw [createWhereClause_single key _ start .pg false h1 h2 h3]
    simp [processCondition, List.lookup, asStr,
      show strIncludes "BETWEEN" "NULL" = false from rfl,
      (arrayPlaceholders_spec xs start).1]

theorem countChar_append (m : Char) (a b : String) :
    countChar m (a ++ b) = countChar m a + countChar m b := by
  simp [countChar, String.data_append, List.count_append]

theorem countChar_intercalate_go (m : Char) (sep : String) (hsep : countChar m sep = 0) :
    ∀ (as : List String) (acc : String),
      countChar m (String.intercalate.go acc sep as)
        = countChar m acc + (as.map (countChar m)).sum := by
  intro as
  induction as with
  | nil => intro acc; simp [String.intercalate.go]
  | cons a as ih =>
    intro acc
    rw [show String.intercalate.go acc sep (a :: as)
          = String.intercalate.go (acc ++ sep ++ a) sep as from rfl]
    rw [ih, countChar_append, countChar_append, hsep]
    simp only [List.map_cons, List.sum_cons]
    omega

theorem countChar_intercalate (m : Char) (sep : String) (hsep : countChar m sep = 0)
    (l : List String) :
    countChar m (String.intercalate sep l) = (l.map (countChar m)).sum := by
  cases l with
  | nil => rfl
  | cons a as =>
    rw [show String.intercalate sep (a :: as) = String.intercalate.go a sep as from rfl]
    rw [countChar_intercalate_go m sep hsep as a]
    simp

theorem digitChar_isDigit : ∀ k : Nat, k < 10 → (Nat.digitChar k).isDigit = true := by
  decide

theorem toDigitsCore_mem (f : Nat) :
    ∀ (n : Nat) (ds : List Char) (c : Char), c ∈ Nat.toDigitsCore 10 f n ds →
      c ∈ ds ∨ c.isDigit = true := by
  induction f with
  | zero => intro n ds c hc; exact Or.inl hc
  | succ f ih =>
    intro n ds c hc
    rw [show Nat.toDigitsCore 10 (f + 1) n ds
          = (if n / 10 = 0 then Nat.digitChar (n % 10) :: ds
             else Nat.toDigitsCore 10 f (n / 10) (Nat.digitChar (n % 10) :: ds)) from rfl] at hc
    have hdig : (Nat.digitChar (n % 10)).isDigit = true :=
      digitChar_isDigit (n % 10) (Nat.mod_lt n (by omega))
    by_cases h0 : n / 10 = 0
    · rw [if_pos h0] at hc
      rcases List.mem_cons.mp hc with h | h
      · exact Or.inr (h ▸ hdig)
      · exact Or.inl h
    · rw [if_neg h0] at hc
      rcases ih (n / 10) (Nat.digitChar (n % 10) :: ds) c hc with h | h
      · rcases List.mem_cons.mp h with h2 | h2
        · exact Or.inr (h2 ▸ hdig)
        · exact Or.inl h2
      · exact Or.inr h

theorem countChar_toString_nat (m : Char) (hm : m.isDigit = false) (n : Nat) :
    countChar m (toString n) = 0 := by
  have hmem : m ∉ Nat.toDigits 10 n := by
    intro hmem
    rcases toDigitsCore_mem (n + 1) n [] m hmem with h | h
    · simp at h
    · rw [h] at hm
      exact absurd hm (by simp)
  show countChar m (Nat.repr n) = 0
  simp only [countChar, Nat.repr, Nat.toDigits, List.asString]
  exact List.count_eq_zero.mpr hmem

theorem countChar_pgPlaceholder (n : Nat) :
    countChar '$' (pgPlaceholderGenerator n) = 1 := by
  rw [show pgPlaceholderGenerator n = "$" ++ toString n from rfl, countChar_append]
  rw [countChar_toString_nat '$' (by decide) n,
    show countChar '$' "$" = 1 from rfl]

theorem arrayPlaceholders_countSum (ct : DBClients) :
    ∀ (elems : List JsVal) (i : Nat),
      ((arrayPlaceholders ct elems i).1.map (countChar (placeholderMarker ct))).sum
        = elems.length := by
  intro elems
  induction elems with
  | nil => intro i; cases ct <;> simp [arrayPlaceholders]
  | cons e es ih =>
    intro i
    cases ct with
    | pg =>
      simp only [arrayPlaceholders, List.map_cons, List.sum_cons, List.length_cons]
      rw [ih (i + 1)]
      rw [show placeholderMarker .pg = '$' from rfl, countChar_pgPlaceholder]
      omega
    | mysql =>
      simp only [arrayPlaceholders, List.map_cons, List.sum_cons, List.length_cons]
      rw [ih i, show countChar (placeholderMarker .mysql) mysqlPlaceholderGenerator = 1 from rfl]
      omega

theorem startsWithChars_decomp : ∀ (pat s : List Char),
    startsWithChars s pat = true → s = pat ++ s.drop pat.length := by
  intro pat
  induction pat with
  | nil => intro s h; simp
  | cons p ps ih =>
    intro s h
    cases s with
    | nil => simp [startsWithChars] at h
    | cons c cs =>
      simp only [startsWithChars, Bool.and_eq_true, beq_iff_eq] at h
      obtain ⟨hc, hrest⟩ := h
      subst hc
      have := ih cs hrest
      simp only [List.length_cons, List.drop_succ_cons, List.cons_append]
      exact congrArg _ this

theorem count_replaceFirstChars (m : Char) (pat rep : List Char)
    (hpat : pat.count m = 0) (hrep : rep.count m = 0) :
    ∀ s : List Char, (replaceFirstChars pat rep s).count m = s.count m := by
  intro s
  induction s with
  | nil =>
    rw [show replaceFirstChars pat rep []
          = (if startsWithChars [] pat then rep else []) from rfl]
    split
    · simp [hrep]
    · rfl
  | cons c cs ih =>
    rw [show replaceFirstChars pat rep (c :: cs)
          = (if startsWithChars (c :: cs) pat then rep ++ (c :: cs).drop pat.length
             else c :: replaceFirstChars pat rep cs) from rfl]
    split
    · rename_i hsw
      have hdec := startsWithChars_decomp pat (c :: cs) hsw
      rw [List.count_append, hrep]
      conv_rhs => rw [hdec]
      rw [List.count_append, hpat]
    · rw [List.count_cons, List.count_cons, ih]

theorem countChar_replaceFirst (m : Char) (s pat rep : String)
    (hpat : countChar m pat = 0) (hrep : countChar m rep = 0) :
    countChar m (replaceFirst s pat rep) = countChar m s :=
  count_replaceFirstChars m pat.data rep.data hpat hrep s.data

/-- Every `processCondition` run appends its contribution to the incoming
state; the contribution depends only on the key, the condition and the
incoming index. -/
theorem processCondition_append (ct : DBClients) (un : Bool) (key : String) (c : JsVal)
    (i : Nat) (ps : List String) (vs : List JsVal) :
    processCondition ct un key c ⟨i, ps, vs⟩
      = ⟨(leafOut ct un key c i).index,
         ps ++ (leafOut ct un key c i).whereParts,
         vs ++ (leafOut ct un key c i).values⟩ := by
  unfold leafOut
  cases c with
  | vstr s => simp [processCondition]
  | vnum n => simp [processCondition]
  | vbool b => simp [processCondition]
  | vnull => simp [processCondition]
  | varr xs => simp [processCondition]
  | vobj fields =>
    simp only [processCondition]
    cases List.lookup "operator" fields with
    | none => simp
    | some opv =>
      cases opv with
      | vstr op =>
        cases List.lookup "value" fields with
        | none => simp
        | some value =>
          cases hne : (if op = "NOT EXISTS" then asStr value else none) with
          | some sub => simp [hne]
          | none =>
            by_cases hnull : strIncludes op "NULL" = true
            · simp [hne, hnull]
            · cases value <;> simp [hne, hnull]
      | vnum n => simp
      | vbool b => simp
      | vnull => simp
      | varr xs => simp
      | vobj f2 => simp

/-- The leaf contribution never holds more than one part, and a leaf of
the accepted shape contributes exactly one. -/
theorem leafOut_parts_length (ct : DBClients) (un : Bool) (key : String) (c : JsVal)
    (i : Nat) :
    (leafOut ct un key c i).whereParts.length ≤ 1 ∧
    (isLeafObj c = true → (leafOut ct un key c i).whereParts.length = 1) := by
  unfold leafOut isLeafObj
  cases c with
  | vstr s => simp [processCondition]
  | vnum n => simp [processCondition]
  | vbool b => simp [processCondition]
  | vnull => simp [processCondition]
  | varr xs => simp [processCondition]
  | vobj fields =>
    simp only [processCondition, hasKey]
    cases List.lookup "operator" fields with
    | none => simp
    | some opv =>
      cases opv with
      | vstr op =>
        cases List.lookup "value" fields with
        | none => simp
        | some value =>
          cases hne : (if op = "NOT EXISTS" then asStr value else none) with
          | some sub => simp [hne]
          | none =>
            by_cases hnull : strIncludes op "NULL" = true
            · simp [hne, hnull]
            · cases value <;> simp [hne, hnull]
      | vnum n => simp
      | vbool b => simp
      | vnull => simp
      | varr xs => simp
      | vobj f2 => simp

/-- A marker-free string for either dialect's marker. -/
theorem countChar_marker_lit (ct : DBClients) (s : String)
    (h1 : countChar '$' s = 0) (h2 : countChar '?' s = 0) :
    countChar (placeholderMarker ct) s = 0 := by
  cases ct
  · exact h1
  · exact h2

/-- The pg placeholder carries exactly one marker for the pg dialect. -/
theorem countChar_marker_pgPlaceholder (n : Nat) :
    countChar (placeholderMarker .pg) (pgPlaceholderGenerator n) = 1 :=
  countChar_pgPlaceholder n

/-- Looked-up field values of a clean object are clean. -/
theorem cleanVal_of_lookup (m : Char) (fields : List (String × JsVal))
    (hc : cleanValFields m fields = true) :
    ∀ {k : String} {v : JsVal}, List.lookup k fields = some v → cleanVal m v = true := by
  induction fields with
  | nil => intro k v h; simp [List.lookup] at h
  | cons kv fs ih =>
    intro k v h
    have hc2 := hc
    simp only [cleanValFields, Bool.and_eq_true] at hc2
    rw [show List.lookup k (kv :: fs)
          = (match k == kv.1 with
             | true => some kv.2
             | false => List.lookup k fs) from by
        cases kv
        rfl] at h
    cases hkk : k == kv.1 with
    | true =>
      rw [hkk] at h
      simp only [] at h
      cases h
      exact hc2.1.2
    | false =>
      rw [hkk] at h
      exact ih hc2.2 h

/-! ### Characterization of the leaf contribution, one lemma per branch of
`processCondition`. -/

/-- Conditions that are not objects contribute nothing. -/
theorem leafOut_not_obj (ct : DBClients) (un : Bool) (key : String) (c : JsVal) (i : Nat)
    (h : ∀ fields, c ≠ JsVal.vobj fields) : leafOut ct un key c i = ⟨i, [], []⟩ := by
  cases c with
  | vobj fields => exact absurd rfl (h fields)
  | vstr s => rfl
  | vnum n => rfl
  | vbool b => rfl
  | vnull => rfl
  | varr xs => rfl

/-- Objects that do not carry a string operator and a value contribute
nothing. -/
theorem leafOut_not_leaf (ct : DBClients) (un : Bool) (key : String)
    (fields : List (String × JsVal)) (i : Nat)
    (h : (∀ v, List.lookup "operator" fields = some v → asStr v = none) ∨
         List.lookup "value" fields = none) :
    leafOut ct un key (.vobj fields) i = ⟨i, [], []⟩ := by
  unfold leafOut
  simp only [processCondition]
  cases hop : List.lookup "operator" fields with
  | none => rfl
  | some opv =>
    cases opv with
    | vstr op =>
      rcases h with h | h
      · exact absurd (h _ hop) (by simp [asStr])
      · rw [h]
    | vnum n => cases List.lookup "value" fields <;> rfl
    | vbool b => cases List.lookup "value" fields <;> rfl
    | vnull => cases List.lookup "value" fields <;> rfl
    | varr xs => cases List.lookup "value" fields <;> rfl
    | vobj f2 => cases List.lookup "value" fields <;> rfl

/-- The NOT EXISTS branch: subquery verbatim, no value, no index move. -/
theorem leafOut_notExists (ct : DBClients) (un : Bool) (key : String)
    (fields : List (String × JsVal)) (sub : String) (i : Nat)
    (hop : List.lookup "operator" fields = some (.vstr "NOT EXISTS"))
    (hval : List.lookup "value" fields = some (.vstr sub)) :
    leafOut ct un key (.vobj fields) i = ⟨i, ["NOT EXISTS (" ++ sub ++ ")"], []⟩ := by
  unfold leafOut
  simp [processCondition, hop, hval, asStr]

/-- The NULL-operator branch: `key op`, no value, no index move. -/
theorem leafOut_null (ct : DBClients) (un : Bool) (key op : String)
    (fields : List (String × JsVal)) (value : JsVal) (i : Nat)
    (hop : List.lookup "operator" fields = some (.vstr op))
    (hval : List.lookup "value" fields = some value)
    (hne : (if op = "NOT EXISTS" then asStr value else none) = none)
    (hnull : strIncludes op "NULL" = true) :
    leafOut ct un key (.vobj fields) i = ⟨i, [key ++ " " ++ op], []⟩ := by
  unfold leafOut
  simp [processCondition, hop, hval, hne, hnull]

/-- The array branch: one placeholder per element, all elements bound. -/
theorem leafOut_array (ct : DBClients) (un : Bool) (key op : String)
    (fields : List (String × JsVal)) (elems : List JsVal) (i : Nat)
    (hop : List.lookup "operator" fields = some (.vstr op))
    (hval : List.lookup "value" fields = some (.varr elems))
    (hnull : ¬ strIncludes op "NULL" = true) :
    leafOut ct un key (.vobj fields) i
      = ⟨(arrayPlaceholders ct elems i).2,
         [if op = "BETWEEN" then
            key ++ " " ++ op ++ " " ++
              replaceFirst (String.intercalate ", " (arrayPlaceholders ct elems i).1)
                ", " " AND "
          else
            key ++ " " ++ op ++ " (" ++
              String.intercalate ", " (arrayPlaceholders ct elems i).1 ++ ")"],
         elems⟩ := by
  unfold leafOut
  have hne : (if op = "NOT EXISTS" then asStr (JsVal.varr elems) else none) = none := by
    split <;> rfl
  simp only [processCondition, hop, hval, hne]
  rw [if_neg hnull]
  by_cases hbet : op = "BETWEEN"
  · simp [hbet]
  · by_cases hin : op = "IN"
    · simp [hbet, hin]
    · simp [hbet, hin]

/-- The scalar branch: one placeholder, the value bound, index + 1. -/
theorem leafOut_scalar (ct : DBClients) (un : Bool) (key op : String)
    (fields : List (String × JsVal)) (value : JsVal) (i : Nat)
    (hop : List.lookup "operator" fields = some (.vstr op))
    (hval : List.lookup "value" fields = some value)
    (hne : (if op = "NOT EXISTS" then asStr value else none) = none)
    (hnull : ¬ strIncludes op "NULL" = true)
    (hv : isArr value = false) :
    leafOut ct un key (.vobj fields) i
      = ⟨i + 1, [scalarPartFor ct un key op i], [value]⟩ := by
  unfold leafOut
  simp only [processCondition, hop, hval, hne]
  rw [if_neg hnull]
  cases value with
  | varr xs => simp [isArr] at hv
  | vstr s => simp [scalarPartFor]
  | vnum n => simp [scalarPartFor]
  | vbool b => simp [scalarPartFor]
  | vnull => simp [scalarPartFor]
  | vobj f2 => simp [scalarPartFor]

/-- The scalar part always carries exactly one placeholder marker. -/
theorem scalarPart_count (ct : DBClients) (un : Bool) (key op : String) (i : Nat)
    (hkey : countChar (placeholderMarker ct) key = 0)
    (hopc : countChar (placeholderMarker ct) op = 0) :
    countChar (placeholderMarker ct) (scalarPartFor ct un key op i) = 1 := by
  unfold scalarPartFor
  by_cases hu : (un && (ct == DBClients.pg)) = true
  · have hct : ct = DBClients.pg := by
      cases ct
      · rfl
      · rw [show (DBClients.mysql == DBClients.pg) = false from rfl, Bool.and_false] at hu
        cases hu
    subst hct
    rw [if_pos hu]
    by_cases hil : op.toUpper = "ILIKE"
    · rw [if_pos hil]
      simp [countChar_append, hkey, countChar_marker_pgPlaceholder,
        countChar_marker_lit DBClients.pg "unaccent(" rfl rfl,
        countChar_marker_lit DBClients.pg "::text) ILIKE unaccent(" rfl rfl,
        countChar_marker_lit DBClients.pg ")" rfl rfl]
    · rw [if_neg hil]
      simp [countChar_append, hkey, hopc, countChar_marker_pgPlaceholder,
        countChar_marker_lit DBClients.pg "unaccent(" rfl rfl,
        countChar_marker_lit DBClients.pg "::text) " rfl rfl,
        countChar_marker_lit DBClients.pg " unaccent(" rfl rfl,
        countChar_marker_lit DBClients.pg ")" rfl rfl]
  · rw [if_neg hu]
    cases ct with
    | pg =>
      simp [countChar_append, hkey, hopc, countChar_marker_pgPlaceholder,
        countChar_marker_lit DBClients.pg " " rfl rfl]
    | mysql =>
      simp [countChar_append, hkey, hopc,
        countChar_marker_lit DBClients.mysql " " rfl rfl,
        show countChar (placeholderMarker DBClients.mysql) mysqlPlaceholderGenerator = 1
          from rfl]

/-- Marker counting for the leaf contribution: under marker-free strings,
the parts carry exactly one marker per bound value; under the numbered
dialect the index advances by the number of bound values. -/
theorem leafOut_count (ct : DBClients) (un : Bool) (key : String) (c : JsVal) (i : Nat)
    (hk : cleanStr (placeholderMarker ct) key = true)
    (hc : cleanVal (placeholderMarker ct) c = true) :
    partsCountSum (placeholderMarker ct) (leafOut ct un key c i).whereParts
      = (leafOut ct un key c i).values.length ∧
    (ct = .pg → (leafOut ct un key c i).index = i + (leafOut ct un key c i).values.length) := by
  have hkey : countChar (placeholderMarker ct) key = 0 := by
    simpa [cleanStr, countChar] using hk
  cases c with
  | vstr s => rw [leafOut_not_obj ct un key _ i (by intro f h; cases h)]; simp [partsCountSum]
  | vnum n => rw [leafOut_not_obj ct un key _ i (by intro f h; cases h)]; simp [partsCountSum]
  | vbool b => rw [leafOut_not_obj ct un key _ i (by intro f h; cases h)]; simp [partsCountSum]
  | vnull => rw [leafOut_not_obj ct un key _ i (by intro f h; cases h)]; simp [partsCountSum]
  | varr xs => rw [leafOut_not_obj ct un key _ i (by intro f h; cases h)]; simp [partsCountSum]
  | vobj fields =>
    have hcf : cleanValFields (placeholderMarker ct) fields = true := by
      simpa [cleanVal] using hc
    cases hop : List.lookup "operator" fields with
    | none =>
      rw [leafOut_not_leaf ct un key fields i (Or.inl (by intro v hv; rw [hop] at hv; cases hv))]
      simp [partsCountSum]
    | some opv =>
      have hopv : cleanVal (placeholderMarker ct) opv = true :=
        cleanVal_of_lookup _ fields hcf hop
      cases opv with
      | vstr op =>
        have hopc : countChar (placeholderMarker ct) op = 0 := by
          simpa [cleanVal, cleanStr, countChar] using hopv
        cases hval : List.lookup "value" fields with
        | none =>
          rw [leafOut_not_leaf ct un key fields i (Or.inr hval)]
          simp [partsCountSum]
        | some value =>
          have hvalc : cleanVal (placeholderMarker ct) value = true :=
            cleanVal_of_lookup _ fields hcf hval
          cases hne : (if op = "NOT EXISTS" then asStr value else none) with
          | some sub =>
            have hvs : asStr value = some sub ∧ op = "NOT EXISTS" := by
              by_cases h : op = "NOT EXISTS"
              · exact ⟨by simpa [h] using hne, h⟩
              · simp [h] at hne
            have hvstr : value = JsVal.vstr sub := by
              have h1 := hvs.1
              cases value <;> simp [asStr] at h1
              rw [h1]
            rw [hvs.2] at hop
            rw [leafOut_notExists ct un key fields sub i hop (hvstr ▸ hval)]
            have hsubc : countChar (placeholderMarker ct) sub = 0 := by
              rw [hvstr] at hvalc
              simpa [cleanVal, cleanStr, countChar] using hvalc
            refine ⟨?_, fun hct => by simp⟩
            simp [partsCountSum, countChar_append, hsubc,
              countChar_marker_lit ct "NOT EXISTS (" rfl rfl,
              countChar_marker_lit ct ")" rfl rfl]
          | none =>
            by_cases hnull : strIncludes op "NULL" = true
            · rw [leafOut_null ct un key op fields value i hop hval hne hnull]
              refine ⟨?_, fun hct => by simp⟩
              simp [partsCountSum, countChar_append, hkey, hopc,
                countChar_marker_lit ct " " rfl rfl]
            · cases hv : isArr value with
              | true =>
                have hvarr : ∃ elems, value = JsVal.varr elems := by
                  cases value <;> simp [isArr] at hv
                  exact ⟨_, rfl⟩
                obtain ⟨elems, rfl⟩ := hvarr
                rw [leafOut_array ct un key op fields elems i hop hval hnull]
                have hsep := countChar_marker_lit ct ", " rfl rfl
                have hph : countChar (placeholderMarker ct)
                    (String.intercalate ", " (arrayPlaceholders ct elems i).1)
                      = elems.length := by
                  rw [countChar_intercalate _ _ hsep, arrayPlaceholders_countSum]
                refine ⟨?_, ?_⟩
                · simp only [partsCountSum, List.map_cons, List.map_nil,
                    List.sum_cons, List.sum_nil]
                  by_cases hbet : op = "BETWEEN"
                  · rw [if_pos hbet]
                    have hrf : countChar (placeholderMarker ct)
                        (replaceFirst
                          (String.intercalate ", " (arrayPlaceholders ct elems i).1)
                          ", " " AND ")
                          = elems.length := by
                      rw [countChar_replaceFirst _ _ _ _ hsep
                        (countChar_marker_lit ct " AND " rfl rfl), hph]
                    simp [countChar_append, hrf, hkey, hopc,
                      countChar_marker_lit ct " " rfl rfl]
                  · rw [if_neg hbet]
                    simp [countChar_append, hph, hkey, hopc,
                      countChar_marker_lit ct " " rfl rfl,
                      countChar_marker_lit ct " (" rfl rfl,
                      countChar_marker_lit ct ")" rfl rfl]
                · intro hct
                  subst hct
                  rw [(arrayPlaceholders_spec elems i).1]
              | false =>
                rw [leafOut_scalar ct un key op fields value i hop hval hne hnull hv]
                refine ⟨?_, fun hct => by simp⟩
                simp only [partsCountSum, List.map_cons, List.map_nil,
                  List.sum_cons, List.sum_nil, List.length_cons, List.length_nil]
                rw [scalarPart_count ct un key op i hkey hopc]
                omega
      | vnum n =>
        rw [leafOut_not_leaf ct un key fields i (Or.inl (by
          intro v hv
          rw [hop] at hv
          cases hv
          rfl))]
        simp [partsCountSum]
      | vbool b =>
        rw [leafOut_not_leaf ct un key fields i (Or.inl (by
          intro v hv
          rw [hop] at hv
          cases hv
          rfl))]
        simp [partsCountSum]
      | vnull =>
        rw [leafOut_not_leaf ct un key fields i (Or.inl (by
          intro v hv
          rw [hop] at hv
          cases hv
          rfl))]
        simp [partsCountSum]
      | varr xs =>
        rw [leafOut_not_leaf ct un key fields i (Or.inl (by
          intro v hv
          rw [hop] at hv
          cases hv
          rfl))]
        simp [partsCountSum]
      | vobj f2 =>
        rw [leafOut_not_leaf ct un key fields i (Or.inl (by
          intro v hv
          rw [hop] at hv
          cases hv
          rfl))]
        simp [partsCountSum]

theorem partsCountSum_append (m : Char) (a b : List String) :
    partsCountSum m (a ++ b) = partsCountSum m a + partsCountSum m b := by
  simp [partsCountSum]

/-- Popping moves one part's count out of the list; nothing is lost. -/
theorem pop_conserve (m : Char) (l : List String) :
    partsCountSum m l.dropLast + optPartCount m l.getLast? = partsCountSum m l := by
  rcases List.eq_nil_or_concat l with rfl | ⟨l2, a, rfl⟩
  · simp [partsCountSum, optPartCount]
  · rw [List.concat_eq_append, List.dropLast_concat, List.getLast?_concat,
      partsCountSum_append]
    simp [partsCountSum, optPartCount]

/-- The falsy filter drops only zero-count entries. -/
theorem keepTruthy_count (m : Char) :
    ∀ raw : List (Option String),
      ((keepTruthy raw).map (countChar m)).sum = (raw.map (optPartCount m)).sum := by
  intro raw
  induction raw with
  | nil => rfl
  | cons p ps ih =>
    cases p with
    | none => simpa [keepTruthy, optPartCount] using ih
    | some s =>
      by_cases hs : s = ""
      · subst hs
        simpa [keepTruthy, optPartCount, countChar] using ih
      · simp only [keepTruthy, List.filterMap_cons, if_neg hs, List.map_cons,
          List.sum_cons, optPartCount]
        rw [show (List.filterMap (fun p => match p with
            | some s => if s = "" then none else some s
            | none => none) ps) = keepTruthy ps from rfl, ih]

/-- Counting invariant of the composite map pass: parts plus collected raw
results conserve the marker count, one marker per bound value added. -/
theorem processSubList_count (ct : DBClients) (un : Bool) :
    ∀ (subs : List JsVal) (st : WhereState),
      cleanValList (placeholderMarker ct) subs = true →
      ∃ vals : List JsVal,
        (processSubList ct un subs st).1.values = st.values ++ vals ∧
        partsCountSum (placeholderMarker ct) (processSubList ct un subs st).1.whereParts
            + ((processSubList ct un subs st).2.map (optPartCount (placeholderMarker ct))).sum
          = partsCountSum (placeholderMarker ct) st.whereParts + vals.length ∧
        (ct = .pg → (processSubList ct un subs st).1.index = st.index + vals.length) := by
  intro subs
  induction subs with
  | nil =>
    intro st h
    exact ⟨[], by simp [processSubList], by simp [processSubList],
      fun _ => by simp [processSubList]⟩
  | cons sub rest ih =>
    intro st h
    simp only [cleanValList, Bool.and_eq_true] at h
    obtain ⟨h1, h2⟩ := h
    simp only [processSubList]
    cases sub with
    | vobj fs =>
      cases fs with
      | nil =>
        obtain ⟨vals2, hv2, hc2, hi2⟩ := ih ({ st with whereParts := st.whereParts.dropLast }) h2
        refine ⟨vals2, ?_, ?_, ?_⟩
        · simpa [processSub, popPart] using hv2
        · simp only [processSub, popPart, List.map_cons, List.sum_cons]
          dsimp only at hc2
          have := pop_conserve (placeholderMarker ct) st.whereParts
          omega
        · intro hct
          simpa [processSub, popPart] using hi2 hct
      | cons kc r2 =>
        have hkc : cleanStr (placeholderMarker ct) kc.1 = true ∧
            cleanVal (placeholderMarker ct) kc.2 = true := by
          simp only [cleanVal, cleanValFields, Bool.and_eq_true] at h1
          exact ⟨h1.1.1, h1.1.2⟩
        have hpc := processCondition_append ct un kc.1 kc.2 st.index st.whereParts st.values
        have hlc := leafOut_count ct un kc.1 kc.2 st.index hkc.1 hkc.2
        set lo := leafOut ct un kc.1 kc.2 st.index with hlo
        have hst : processCondition ct un kc.1 kc.2 st
            = ⟨lo.index, st.whereParts ++ lo.whereParts, st.values ++ lo.values⟩ := by
          rw [show st = ⟨st.index, st.whereParts, st.values⟩ from rfl] at hpc ⊢
          exact hpc
        have hsub : processSub ct un st (JsVal.vobj (kc :: r2))
            = popPart ⟨lo.index, st.whereParts ++ lo.whereParts, st.values ++ lo.values⟩ := by
          cases kc with
          | mk k c => rw [processSub, ← hst]
        rw [hsub]
        obtain ⟨vals2, hv2, hc2, hi2⟩ := ih
          ({ index := lo.index,
             whereParts := (st.whereParts ++ lo.whereParts).dropLast,
             values := st.values ++ lo.values }) h2
        refine ⟨lo.values ++ vals2, ?_, ?_, ?_⟩
        · simp only [popPart] at hv2 ⊢
          rw [hv2]
          simp
        · simp only [popPart, List.map_cons, List.sum_cons] at hc2 ⊢
          try dsimp only at hc2
          have hpop := pop_conserve (placeholderMarker ct) (st.whereParts ++ lo.whereParts)
          rw [partsCountSum_append] at hpop
          have hcount := hlc.1
          simp only [List.length_append]
          omega
        · intro hct
          simp only [popPart] at hi2 ⊢
          try dsimp only at hi2
          rw [hi2 hct, hlc.2 hct]
          simp only [List.length_append]
          omega
    | vstr s =>
      obtain ⟨vals2, hv2, hc2, hi2⟩ := ih st h2
      exact ⟨vals2, by simpa [processSub] using hv2,
        by simpa [processSub, optPartCount, countChar] using hc2,
        fun hct => by simpa [processSub] using hi2 hct⟩
    | vnum n =>
      obtain ⟨vals2, hv2, hc2, hi2⟩ := ih st h2
      exact ⟨vals2, by simpa [processSub] using hv2,
        by simpa [processSub, optPartCount, countChar] using hc2,
        fun hct => by simpa [processSub] using hi2 hct⟩
    | vbool b =>
      obtain ⟨vals2, hv2, hc2, hi2⟩ := ih st h2
      exact ⟨vals2, by simpa [processSub] using hv2,
        by simpa [processSub, optPartCount, countChar] using hc2,
        fun hct => by simpa [processSub] using hi2 hct⟩
    | vnull =>
      obtain ⟨vals2, hv2, hc2, hi2⟩ := ih st h2
      exact ⟨vals2, by simpa [processSub] using hv2,
        by simpa [processSub, optPartCount, countChar] using hc2,
        fun hct => by simpa [processSub] using hi2 hct⟩
    | varr xs =>
      obtain ⟨vals2, hv2, hc2, hi2⟩ := ih st h2
      exact ⟨vals2, by simpa [processSub] using hv2,
        by simpa [processSub, optPartCount, countChar] using hc2,
        fun hct => by simpa [processSub] using hi2 hct⟩

/-- Counting invariant of a whole composite block. -/
theorem processComposite_count (ct : DBClients) (un : Bool) (lop : String)
    (subs : List JsVal) (st : WhereState)
    (hlop : countChar (placeholderMarker ct) (" " ++ lop ++ " ") = 0)
    (hsubs : cleanValList (placeholderMarker ct) subs = true) :
    ∃ vals : List JsVal,
      (processComposite ct un lop subs st).values = st.values ++ vals ∧
      partsCountSum (placeholderMarker ct) (processComposite ct un lop subs st).whereParts
        = partsCountSum (placeholderMarker ct) st.whereParts + vals.length ∧
      (ct = .pg → (processComposite ct un lop subs st).index = st.index + vals.length) := by
  obtain ⟨vals, hv, hc, hi⟩ := processSubList_count ct un subs st hsubs
  refine ⟨vals, ?_, ?_, ?_⟩
  · simpa [processComposite] using hv
  · simp only [processComposite, partsCountSum_append]
    have hg : countChar (placeholderMarker ct)
        ("(" ++ String.intercalate (" " ++ lop ++ " ") (keepTruthy (processSubList ct un subs st).2) ++ ")")
          = ((processSubList ct un subs st).2.map (optPartCount (placeholderMarker ct))).sum := by
      rw [countChar_append, countChar_append,
        countChar_intercalate _ _ hlop, keepTruthy_count,
        countChar_marker_lit ct "(" rfl rfl, countChar_marker_lit ct ")" rfl rfl]
      omega
    simp only [partsCountSum, List.map_cons, List.map_nil, List.sum_cons, List.sum_nil]
    rw [hg]
    simp only [partsCountSum] at hc
    omega
  · intro hct
    simpa [processComposite] using hi hct

/-- Counting invariant of the top-level fold over the entries. -/
theorem foldl_count (ct : DBClients) (un : Bool) :
    ∀ (entries : List (String × JsVal)) (st : WhereState),
      cleanValFields (placeholderMarker ct) entries = true →
      ∃ vals : List JsVal,
        (entries.foldl (fun st kv => processCondition ct un kv.1 kv.2 st) st).values
          = st.values ++ vals ∧
        partsCountSum (placeholderMarker ct)
          (entries.foldl (fun st kv => processCondition ct un kv.1 kv.2 st) st).whereParts
          = partsCountSum (placeholderMarker ct) st.whereParts + vals.length ∧
        (ct = .pg →
          (entries.foldl (fun st kv => processCondition ct un kv.1 kv.2 st) st).index
            = st.index + vals.length) := by
  intro entries
  induction entries with
  | nil => intro st h; exact ⟨[], by simp, by simp, fun _ => by simp⟩
  | cons kv rest ih =>
    intro st h
    simp only [cleanValFields, Bool.and_eq_true] at h
    obtain ⟨⟨hk, hv⟩, h2⟩ := h
    have hpc := processCondition_append ct un kv.1 kv.2 st.index st.whereParts st.values
    have hlc := leafOut_count ct un kv.1 kv.2 st.index hk hv
    set lo := leafOut ct un kv.1 kv.2 st.index with hlo
    have hst : processCondition ct un kv.1 kv.2 st
        = ⟨lo.index, st.whereParts ++ lo.whereParts, st.values ++ lo.values⟩ := by
      rw [show st = ⟨st.index, st.whereParts, st.values⟩ from rfl] at hpc ⊢
      exact hpc
    simp only [List.foldl_cons, hst]
    obtain ⟨vals2, hv2, hc2, hi2⟩ := ih
      ⟨lo.index, st.whereParts ++ lo.whereParts, st.values ++ lo.values⟩ h2
    refine ⟨lo.values ++ vals2, ?_, ?_, ?_⟩
    · rw [hv2]
      simp
    · dsimp only at hc2
      rw [hc2, partsCountSum_append]
      have := hlc.1
      simp only [List.length_append]
      omega
    · intro hct
      dsimp only at hi2
      rw [hi2 hct, hlc.2 hct]
      simp only [List.length_append]
      omega

/-- `x || y` returning a value means one of the operands held it. -/
theorem jsOr_eq_some {a b : Option JsVal} {v : JsVal} (h : jsOr a b = some v) :
    a = some v ∨ b = some v := by
  unfold jsOr at h
  split at h
  · exact Or.inl h
  · exact Or.inr h

/-- Counting invariant of the JOINS phase. -/
theorem processJoinsBlock_count (ct : DBClients) (un : Bool)
    (conds : List (String × JsVal)) (st : WhereState)
    (hclean : cleanConds (placeholderMarker ct) conds = true) :
    ∃ vals : List JsVal,
      (processJoinsBlock ct un conds st).values = st.values ++ vals ∧
      partsCountSum (placeholderMarker ct) (processJoinsBlock ct un conds st).whereParts
        = partsCountSum (placeholderMarker ct) st.whereParts + vals.length ∧
      (ct = .pg → (processJoinsBlock ct un conds st).index = st.index + vals.length) := by
  unfold processJoinsBlock
  by_cases hj : hasKey conds "JOINS" = true
  · rw [if_pos hj]
    cases hl : List.lookup "JOINS" conds with
    | none => exact ⟨[], by simp, by simp, fun _ => by simp⟩
    | some v =>
      cases v with
      | varr subs =>
        have hsubs : cleanValList (placeholderMarker ct) subs = true := by
          have := cleanVal_of_lookup (placeholderMarker ct) conds hclean hl
          simpa [cleanVal] using this
        have hlop : countChar (placeholderMarker ct)
            (" " ++ (if truthyOpt (some (JsVal.varr subs)) then "AND" else "OR") ++ " ")
              = 0 := by
          split
          · cases ct <;> rfl
          · cases ct <;> rfl
        exact processComposite_count ct un _ subs st hlop hsubs
      | vstr s => exact ⟨[], by simp, by simp, fun _ => by simp⟩
      | vnum n => exact ⟨[], by simp, by simp, fun _ => by simp⟩
      | vbool b => exact ⟨[], by simp, by simp, fun _ => by simp⟩
      | vnull => exact ⟨[], by simp, by simp, fun _ => by simp⟩
      | vobj f2 => exact ⟨[], by simp, by simp, fun _ => by simp⟩
  · rw [if_neg hj]
    exact foldl_count ct un conds st hclean

/-- Counting invariant of the OR/AND phase. -/
theorem processOrAndBlock_count (ct : DBClients) (un : Bool)
    (conds : List (String × JsVal)) (st : WhereState)
    (hclean : cleanConds (placeholderMarker ct) conds = true) :
    ∃ vals : List JsVal,
      (processOrAndBlock ct un conds st).values = st.values ++ vals ∧
      partsCountSum (placeholderMarker ct) (processOrAndBlock ct un conds st).whereParts
        = partsCountSum (placeholderMarker ct) st.whereParts + vals.length ∧
      (ct = .pg → (processOrAndBlock ct un conds st).index = st.index + vals.length) := by
  unfold processOrAndBlock
  by_cases ho : (hasKey conds "OR" || hasKey conds "AND") = true
  · rw [if_pos ho]
    cases hl : jsOr (List.lookup "OR" conds) (List.lookup "AND" conds) with
    | none => exact ⟨[], by simp, by simp, fun _ => by simp⟩
    | some v =>
      cases v with
      | varr subs =>
        have hsubs : cleanValList (placeholderMarker ct) subs = true := by
          rcases jsOr_eq_some hl with h | h
          · have := cleanVal_of_lookup (placeholderMarker ct) conds hclean h
            simpa [cleanVal] using this
          · have := cleanVal_of_lookup (placeholderMarker ct) conds hclean h
            simpa [cleanVal] using this
        have hlop : countChar (placeholderMarker ct)
            (" " ++ (if truthyOpt (List.lookup "OR" conds) then "OR" else "AND") ++ " ")
              = 0 := by
          split
          · cases ct <;> rfl
          · cases ct <;> rfl
        exact processComposite_count ct un _ subs st hlop hsubs
      | vstr s => exact ⟨[], by simp, by simp, fun _ => by simp⟩
      | vnum n => exact ⟨[], by simp, by simp, fun _ => by simp⟩
      | vbool b => exact ⟨[], by simp, by simp, fun _ => by simp⟩
      | vnull => exact ⟨[], by simp, by simp, fun _ => by simp⟩
      | vobj f2 => exact ⟨[], by simp, by simp, fun _ => by simp⟩
  · rw [if_neg ho]
    exact ⟨[], by simp, by simp, fun _ => by simp⟩

/-- C4 amended: for every condition tree and start index — under the
numbered-placeholder dialect, `nextIndex - startIndex` equals both the
number of placeholder markers emitted in the clause text and the length
of the parameter list; under the anonymous-placeholder dialect the number
of `?` markers emitted still equals the parameter-list length, but the
returned index does not advance for array-valued operators (see the
counterexample), so only the text/parameter half of the invariant
survives there.  Emitted placeholders are counted as occurrences of the
dialect's marker, for trees whose strings are marker-free. -/
theorem where_placeholder_invariant :
    ∀ (conds : List (String × JsVal)) (start : Nat) (ct : DBClients) (un : Bool),
      cleanConds (placeholderMarker ct) conds = true →
      countChar (placeholderMarker ct) (createWhereClause conds start ct un).1
          = (createWhereClause conds start ct un).2.1.length ∧
      (ct = .pg →
        (createWhereClause conds start ct un).2.2
          = start + (createWhereClause conds start ct un).2.1.length) := by
  intro conds start ct un hclean
  obtain ⟨vals1, hv1, hc1, hi1⟩ :=
    processJoinsBlock_count ct un conds ⟨start, [], []⟩ hclean
  obtain ⟨vals2, hv2, hc2, hi2⟩ :=
    processOrAndBlock_count ct un conds (processJoinsBlock ct un conds ⟨start, [], []⟩) hclean
  simp only [createWhereClause]
  set st2 := processOrAndBlock ct un conds (processJoinsBlock ct un conds ⟨start, [], []⟩)
    with hst2
  have hvals : st2.values = vals1 ++ vals2 := by
    rw [hv2, hv1]
    simp
  have hsum : partsCountSum (placeholderMarker ct) st2.whereParts
      = (vals1 ++ vals2).length := by
    rw [hc2, hc1]
    simp [partsCountSum]
  have hidx : ct = .pg → st2.index = start + (vals1 ++ vals2).length := by
    intro hct
    rw [hi2 hct, hi1 hct]
    simp only [List.length_append]
    omega
  refine ⟨?_, ?_⟩
  · by_cases he : st2.whereParts.isEmpty
    · rw [if_pos he]
      have hnil : st2.whereParts = [] := by
        cases hp : st2.whereParts
        · rfl
        · rw [hp] at he; simp [List.isEmpty] at he
      rw [hnil] at hsum
      simp only [partsCountSum, List.map_nil, List.sum_nil] at hsum
      rw [hvals]
      simp [countChar, ← hsum]
    · rw [if_neg he]
      rw [countChar_append,
        countChar_intercalate _ _ (countChar_marker_lit ct " AND " rfl rfl),
        countChar_marker_lit ct " WHERE " rfl rfl, hvals]
      simp only [partsCountSum] at hsum
      omega
  · intro hct
    rw [hvals, hidx hct]

/-- Witness for C4's amended claim: a pg tree with an IN list, a scalar
and a NULL check — 3 markers, 3 parameters, next index 4 from 1; the same
tree under mysql still has matching marker and parameter counts. -/
theorem where_placeholder_invariant_witness :
    (countChar '$'
      (createWhereClause
        [("tags", .vobj [("operator", .vstr "IN"), ("value", .varr [.vnum 1, .vnum 2])]),
         ("name", .vobj [("operator", .vstr "="), ("value", .vstr "Jo")]),
         ("deleted_at", .vobj [("operator", .vstr "IS NULL"), ("value", .vnull)])]
        1 .pg false).1
      = (createWhereClause
        [("tags", .vobj [("operator", .vstr "IN"), ("value", .varr [.vnum 1, .vnum 2])]),
         ("name", .vobj [("operator", .vstr "="), ("value", .vstr "Jo")]),
         ("deleted_at", .vobj [("operator", .vstr "IS NULL"), ("value", .vnull)])]
        1 .pg false).2.1.length ∧
      (createWhereClause
        [("tags", .vobj [("operator", .vstr "IN"), ("value", .varr [.vnum 1, .vnum 2])]),
         ("name", .vobj [("operator", .vstr "="), ("value", .vstr "Jo")]),
         ("deleted_at", .vobj [("operator", .vstr "IS NULL"), ("value", .vnull)])]
        1 .pg false).2.2
      = 1 + (createWhereClause
        [("tags", .vobj [("operator", .vstr "IN"), ("value", .varr [.vnum 1, .vnum 2])]),
         ("name", .vobj [("operator", .vstr "="), ("value", .vstr "Jo")]),
         ("deleted_at", .vobj [("operator", .vstr "IS NULL"), ("value", .vnull)])]
        1 .pg false).2.1.length) ∧
    countChar '?'
      (createWhereClause
        [("tags", .vobj [("operator", .vstr "IN"), ("value", .varr [.vnum 1, .vnum 2])])]
        1 .mysql false).1
      = (createWhereClause
        [("tags", .vobj [("operator", .vstr "IN"), ("value", .varr [.vnum 1, .vnum 2])])]
        1 .mysql false).2.1.length :=
  ⟨⟨(where_placeholder_invariant _ 1 .pg false (by decide)).1,
    (where_placeholder_invariant _ 1 .pg false (by decide)).2 rfl⟩,
   (where_placeholder_invariant _ 1 .mysql false (by decide)).1⟩

theorem lookup_none_of_keys {l : List (String × JsVal)} {k : String}
    (h : ∀ kv ∈ l, kv.1 ≠ k) : List.lookup k l = none := by
  induction l with
  | nil => rfl
  | cons kv rest ih =>
    have hk : (k == kv.1) = false := by
      have := h kv (List.mem_cons_self kv rest)
      simp [Ne.symm this]
    cases kv with
    | mk k1 v1 =>
      rw [show List.lookup k ((k1, v1) :: rest)
            = (match k == k1 with
               | true => some v1
               | false => List.lookup k rest) from rfl]
      rw [hk]
      exact ih fun kv hkv => h kv (List.mem_cons_of_mem _ hkv)

theorem lookup_append_of_none {l1 l2 : List (String × JsVal)} {k : String}
    (h : List.lookup k l1 = none) :
    List.lookup k (l1 ++ l2) = List.lookup k l2 := by
  induction l1 with
  | nil => rfl
  | cons kv rest ih =>
    cases kv with
    | mk k1 v1 =>
      rw [show List.lookup k ((k1, v1) :: rest)
            = (match k == k1 with
               | true => some v1
               | false => List.lookup k rest) from rfl] at h
      cases hk : (k == k1) with
      | true => rw [hk] at h; cases h
      | false =>
        rw [hk] at h
        rw [List.cons_append,
          show List.lookup k ((k1, v1) :: (rest ++ l2))
            = (match k == k1 with
               | true => some v1
               | false => List.lookup k (rest ++ l2)) from rfl, hk]
        exact ih h

/-- `processCondition` ignores array conditions. -/
theorem processCondition_varr (ct : DBClients) (un : Bool) (key : String)
    (xs : List JsVal) (st : WhereState) :
    processCondition ct un key (.varr xs) st = st := rfl

theorem intercalate_go_append_single (sep a : String) :
    ∀ (as : List String) (acc : String),
      String.intercalate.go acc sep (as ++ [a])
        = String.intercalate.go acc sep as ++ sep ++ a := by
  intro as
  induction as with
  | nil => intro acc; rfl
  | cons x xs ih =>
    intro acc
    rw [List.cons_append,
      show String.intercalate.go acc sep (x :: (xs ++ [a]))
        = String.intercalate.go (acc ++ sep ++ x) sep (xs ++ [a]) from rfl,
      ih,
      show String.intercalate.go acc sep (x :: xs)
        = String.intercalate.go (acc ++ sep ++ x) sep xs from rfl]

theorem intercalate_append_single (sep a : String) {l : List String} (h : l ≠ []) :
    String.intercalate sep (l ++ [a]) = String.intercalate sep l ++ sep ++ a := by
  cases l with
  | nil => exact absurd rfl h
  | cons x xs =>
    rw [List.cons_append,
      show String.intercalate sep (x :: (xs ++ [a]))
        = String.intercalate.go x sep (xs ++ [a]) from rfl,
      intercalate_go_append_single,
      show String.intercalate sep (x :: xs) = String.intercalate.go x sep xs from rfl]

/-- Folding valid leaves appends exactly one part per leaf; the appended
content depends only on the incoming index. -/
theorem foldl_leaves (ct : DBClients) (un : Bool) :
    ∀ (entries : List (String × JsVal)) (st : WhereState),
      (∀ kv ∈ entries, isLeafObj kv.2 = true) →
      ∃ newParts : List String,
        (entries.foldl (fun st kv => processCondition ct un kv.1 kv.2 st) st).whereParts
          = st.whereParts ++ newParts ∧
        newParts.length = entries.length := by
  intro entries
  induction entries with
  | nil => intro st _; exact ⟨[], by simp, by simp⟩
  | cons kv rest ih =>
    intro st h
    have hkv := h kv (List.mem_cons_self kv rest)
    have hpc := processCondition_append ct un kv.1 kv.2 st.index st.whereParts st.values
    have hone := (leafOut_parts_length ct un kv.1 kv.2 st.index).2 hkv
    obtain ⟨p, hp⟩ := List.length_eq_one.mp hone
    have hst : processCondition ct un kv.1 kv.2 st
        = ⟨(leafOut ct un kv.1 kv.2 st.index).index,
           st.whereParts ++ [p],
           st.values ++ (leafOut ct un kv.1 kv.2 st.index).values⟩ := by
      rw [show st = ⟨st.index, st.whereParts, st.values⟩ from rfl] at hpc ⊢
      rw [hpc, hp]
    simp only [List.foldl_cons, hst]
    obtain ⟨newParts, hparts, hlen⟩ := ih
      ⟨(leafOut ct un kv.1 kv.2 st.index).index,
       st.whereParts ++ [p],
       st.values ++ (leafOut ct un kv.1 kv.2 st.index).values⟩
      (fun kv2 hkv2 => h kv2 (List.mem_cons_of_mem _ hkv2))
    refine ⟨p :: newParts, ?_, by simpa using hlen⟩
    dsimp only at hparts
    rw [hparts]
    simp

/-- On valid leaf children the composite map pass leaves the incoming
parts untouched, and its contribution depends only on the incoming
index. -/
theorem processSubList_leaves (ct : DBClients) (un : Bool) :
    ∀ (subs : List JsVal) (st : WhereState),
      (∀ sub ∈ subs, isLeafSub sub = true) →
      (processSubList ct un subs st).1.whereParts = st.whereParts ∧
      (processSubList ct un subs st).1.index
        = (processSubList ct un subs ⟨st.index, [], []⟩).1.index ∧
      (processSubList ct un subs st).1.values
        = st.values ++ (processSubList ct un subs ⟨st.index, [], []⟩).1.values ∧
      (processSubList ct un subs st).2
        = (processSubList ct un subs ⟨st.index, [], []⟩).2 := by
  intro subs
  induction subs with
  | nil => intro st _; exact ⟨rfl, rfl, by simp [processSubList], rfl⟩
  | cons sub rest ih =>
    intro st h
    have hsub := h sub (List.mem_cons_self sub rest)
    obtain ⟨kc, r2, c, hshape⟩ : ∃ kc r2 c, sub = JsVal.vobj ((kc, c) :: r2) ∧
        isLeafObj c = true := by
      cases sub with
      | vobj fs =>
        cases fs with
        | nil => simp [isLeafSub] at hsub
        | cons kc0 r2 =>
          cases kc0 with
          | mk k0 c0 => exact ⟨k0, r2, c0, rfl, by simpa [isLeafSub] using hsub⟩
      | vstr s => simp [isLeafSub] at hsub
      | vnum n => simp [isLeafSub] at hsub
      | vbool b => simp [isLeafSub] at hsub
      | vnull => simp [isLeafSub] at hsub
      | varr xs => simp [isLeafSub] at hsub
    obtain ⟨hsubeq, hleafc⟩ := hshape
    subst hsubeq
    have hone := (leafOut_parts_length ct un kc c st.index).2 hleafc
    obtain ⟨p, hp⟩ := List.length_eq_one.mp hone
    have hgen : ∀ (w : WhereState), w.index = st.index →
        processSub ct un w (JsVal.vobj ((kc, c) :: r2))
          = (⟨(leafOut ct un kc c st.index).index, w.whereParts,
              w.values ++ (leafOut ct un kc c st.index).values⟩, some p) := by
      intro w hw
      have hpc := processCondition_append ct un kc c w.index w.whereParts w.values
      rw [hw] at hpc
      rw [show processSub ct un w (JsVal.vobj ((kc, c) :: r2))
            = popPart (processCondition ct un kc c w) from rfl]
      rw [show w = ⟨w.index, w.whereParts, w.values⟩ from rfl, hw] at hpc ⊢
      rw [hpc, hp]
      simp [popPart, List.dropLast_concat, List.getLast?_concat]
    simp only [processSubList]
    rw [hgen st rfl, hgen ⟨st.index, [], []⟩ rfl]
    have ihmain := ih
      ⟨(leafOut ct un kc c st.index).index, st.whereParts,
        st.values ++ (leafOut ct un kc c st.index).values⟩
      (fun s hs => h s (List.mem_cons_of_mem _ hs))
    have ihref := ih
      ⟨(leafOut ct un kc c st.index).index, [],
        [] ++ (leafOut ct un kc c st.index).values⟩
      (fun s hs => h s (List.mem_cons_of_mem _ hs))
    dsimp only at ihmain ihref
    refine ⟨?_, ?_, ?_, ?_⟩
    · exact ihmain.1
    · rw [ihmain.2.1, ihref.2.1]
    · rw [ihmain.2.2.1, ihref.2.2.1]
      simp
    · rw [ihmain.2.2.2, ihref.2.2.2]

/-- A composite block of valid leaf children appends exactly one
parenthesized group whose text depends only on the incoming index. -/
theorem processComposite_leaves (ct : DBClients) (un : Bool) (lop : String)
    (subs : List JsVal) (st : WhereState)
    (h : ∀ sub ∈ subs, isLeafSub sub = true) :
    processComposite ct un lop subs st
      = ⟨(processSubList ct un subs ⟨st.index, [], []⟩).1.index,
         st.whereParts ++
           ["(" ++ String.intercalate (" " ++ lop ++ " ")
              (keepTruthy (processSubList ct un subs ⟨st.index, [], []⟩).2) ++ ")"],
         st.values ++ (processSubList ct un subs ⟨st.index, [], []⟩).1.values⟩ := by
  have hs := processSubList_leaves ct un subs st h
  unfold processComposite
  show (⟨(processSubList ct un subs st).1.index,
        (processSubList ct un subs st).1.whereParts ++
          ["(" ++ String.intercalate (" " ++ lop ++ " ")
            (keepTruthy (processSubList ct un subs st).2) ++ ")"],
        (processSubList ct un subs st).1.values⟩ : WhereState) = _
  rw [hs.1, hs.2.1, hs.2.2.1, hs.2.2.2]

/-- C8 amended: for a top-level conditions object made of implicit leaf
conditions (keys not named JOINS/OR/AND) followed by one explicit OR or
AND group whose children carry leaf conditions, compilation joins the
implicit leaves with AND and appends the compiled group as one additional
AND-ed term: the combined clause is the implicit-only clause, ` AND `,
and the group term of the group-only clause compiled at the continuation
index; parameters concatenate and the next index is the group run's.
(With a JOINS group the implicit leaves are dropped — see the
counterexample — and a child that is not a leaf object steals the
preceding part, so both restrictions are necessary.) -/
theorem implicit_and_group_composition
    (implicit : List (String × JsVal)) (gk : String) (subs : List JsVal)
    (start : Nat) (ct : DBClients) (un : Bool)
    (himp : ∀ kv ∈ implicit, isLeafObj kv.2 = true ∧
      kv.1 ≠ "JOINS" ∧ kv.1 ≠ "OR" ∧ kv.1 ≠ "AND")
    (hgk : gk = "OR" ∨ gk = "AND")
    (hsubs : ∀ sub ∈ subs, isLeafSub sub = true)
    (hne : implicit ≠ []) :
    ∃ g : String,
      (createWhereClause [(gk, .varr subs)]
        (createWhereClause implicit start ct un).2.2 ct un).1 = " WHERE " ++ g ∧
      (createWhereClause (implicit ++ [(gk, .varr subs)]) start ct un).1
        = (createWhereClause implicit start ct un).1 ++ " AND " ++ g ∧
      (createWhereClause (implicit ++ [(gk, .varr subs)]) start ct un).2.1
        = (createWhereClause implicit start ct un).2.1
          ++ (createWhereClause [(gk, .varr subs)]
                (createWhereClause implicit start ct un).2.2 ct un).2.1 ∧
      (createWhereClause (implicit ++ [(gk, .varr subs)]) start ct un).2.2
        = (createWhereClause [(gk, .varr subs)]
            (createWhereClause implicit start ct un).2.2 ct un).2.2 := by
  have hgkJ : gk ≠ "JOINS" := by rcases hgk with h | h <;> subst h <;> decide
  have hkeysJ : List.lookup "JOINS" implicit = none :=
    lookup_none_of_keys fun kv hkv => (himp kv hkv).2.1
  have hkeysO : List.lookup "OR" implicit = none :=
    lookup_none_of_keys fun kv hkv => (himp kv hkv).2.2.1
  have hkeysA : List.lookup "AND" implicit = none :=
    lookup_none_of_keys fun kv hkv => (himp kv hkv).2.2.2
  set foldA := implicit.foldl
    (fun st kv => processCondition ct un kv.1 kv.2 st) ⟨start, [], []⟩ with hfoldA
  -- the implicit-only compilation
  have hT1 : createWhereClause implicit start ct un
      = (if foldA.whereParts.isEmpty then ""
         else " WHERE " ++ String.intercalate " AND " foldA.whereParts,
         foldA.values, foldA.index) := by
    have h1 : hasKey implicit "JOINS" = false := by simp [hasKey, hkeysJ]
    have h2 : hasKey implicit "OR" = false := by simp [hasKey, hkeysO]
    have h3 : hasKey implicit "AND" = false := by simp [hasKey, hkeysA]
    unfold createWhereClause processJoinsBlock processOrAndBlock
    simp only [h1, h2, h3, Bool.or_self, Bool.false_eq_true, if_false]
  have hfoldNe : foldA.whereParts ≠ [] := by
    obtain ⟨newParts, hparts, hlen⟩ := foldl_leaves ct un implicit ⟨start, [], []⟩
      (fun kv hkv => (himp kv hkv).1)
    rw [← hfoldA] at hparts
    rw [hparts]
    intro hcontra
    simp only [List.nil_append] at hcontra
    rw [hcontra] at hlen
    exact hne (List.eq_nil_of_length_eq_zero hlen.symm)
  have hfoldEmpty : foldA.whereParts.isEmpty = false := by
    cases hp : foldA.whereParts
    · exact absurd hp hfoldNe
    · rfl
  -- the composite contribution at a given index
  have hsingleJ : List.lookup "JOINS" [(gk, JsVal.varr subs)] = none :=
    lookup_none_of_keys fun kv hkv => by
      rcases List.mem_singleton.mp hkv with rfl
      exact hgkJ
  -- stage-1 of the combined run is the implicit fold
  have hLJ : List.lookup "JOINS" (implicit ++ [(gk, JsVal.varr subs)]) = none := by
    rw [lookup_append_of_none hkeysJ, hsingleJ]
  have hL1 : hasKey (implicit ++ [(gk, JsVal.varr subs)]) "JOINS" = false := by
    simp [hasKey, hLJ]
  have hstage1 : processJoinsBlock ct un (implicit ++ [(gk, JsVal.varr subs)])
      ⟨start, [], []⟩ = foldA := by
    unfold processJoinsBlock
    rw [hL1]
    simp only [Bool.false_eq_true, if_false, List.foldl_append, List.foldl_cons,
      List.foldl_nil, processCondition_varr]
  -- composite data shared by the combined and the group-only runs
  have hcompA := processComposite_leaves ct un gk subs foldA hsubs
  have hcompB := processComposite_leaves ct un gk subs ⟨foldA.index, [], []⟩ hsubs
  set refList := processSubList ct un subs ⟨foldA.index, [], []⟩ with hrefList
  set g := "(" ++ String.intercalate (" " ++ gk ++ " ") (keepTruthy refList.2) ++ ")"
    with hg
  -- stage-2 of the combined run
  have hstage2 : processOrAndBlock ct un (implicit ++ [(gk, JsVal.varr subs)]) foldA
      = ⟨refList.1.index, foldA.whereParts ++ [g], foldA.values ++ refList.1.values⟩ := by
    unfold processOrAndBlock
    rcases hgk with hOR | hAND
    · subst hOR
      have hlo : List.lookup "OR" (implicit ++ [("OR", JsVal.varr subs)])
          = some (JsVal.varr subs) := by
        rw [lookup_append_of_none hkeysO]
        rfl
      have hk1 : hasKey (implicit ++ [("OR", JsVal.varr subs)]) "OR" = true := by
        simp [hasKey, hlo]
      rw [hk1]
      simp only [Bool.true_or, if_true, hlo]
      rw [show jsOr (some (JsVal.varr subs))
            (List.lookup "AND" (implicit ++ [("OR", JsVal.varr subs)]))
          = some (JsVal.varr subs) from rfl]
      simp only [truthyOpt, truthy, if_true]
      exact hcompA
    · subst hAND
      have hlo : List.lookup "OR" (implicit ++ [("AND", JsVal.varr subs)]) = none := by
        rw [lookup_append_of_none hkeysO]
        rfl
      have hla : List.lookup "AND" (implicit ++ [("AND", JsVal.varr subs)])
          = some (JsVal.varr subs) := by
        rw [lookup_append_of_none hkeysA]
        rfl
      have hk1 : hasKey (implicit ++ [("AND", JsVal.varr subs)]) "AND" = true := by
        simp [hasKey, hla]
      have hk0 : hasKey (implicit ++ [("AND", JsVal.varr subs)]) "OR" = false := by
        simp [hasKey, hlo]
      rw [hk0, hk1]
      simp only [Bool.false_or, if_true, hlo, hla]
      rw [show jsOr none (some (JsVal.varr subs)) = some (JsVal.varr subs) from rfl]
      simp only [truthyOpt, if_false]
      exact hcompA
  -- the group-only compilation at the continuation index
  have hT2 : createWhereClause [(gk, JsVal.varr subs)] foldA.index ct un
      = (" WHERE " ++ g, refList.1.values, refList.1.index) := by
    have hstage1b : processJoinsBlock ct un [(gk, JsVal.varr subs)]
        ⟨foldA.index, [], []⟩ = ⟨foldA.index, [], []⟩ := by
      unfold processJoinsBlock
      have : hasKey [(gk, JsVal.varr subs)] "JOINS" = false := by
        simp [hasKey, hsingleJ]
      rw [this]
      simp [processCondition_varr]
    have hstage2b : processOrAndBlock ct un [(gk, JsVal.varr subs)]
        ⟨foldA.index, [], []⟩
        = ⟨refList.1.index, [g], refList.1.values⟩ := by
      unfold processOrAndBlock
      rcases hgk with hOR | hAND
      · subst hOR
        have hlo : List.lookup "OR" [("OR", JsVal.varr subs)]
            = some (JsVal.varr subs) := rfl
        have hk1 : hasKey [("OR", JsVal.varr subs)] "OR" = true := by
          simp [hasKey, hlo]
        rw [hk1]
        simp only [Bool.true_or, if_true, hlo]
        rw [show jsOr (some (JsVal.varr subs)) (List.lookup "AND" [("OR", JsVal.varr subs)])
            = some (JsVal.varr subs) from rfl]
        simp only [truthyOpt, truthy, if_true]
        have := hcompB
        rw [show (⟨foldA.index, [], []⟩ : WhereState).index = foldA.index from rfl] at this
        rw [this]
        simp
      · subst hAND
        have hlo : List.lookup "OR" [("AND", JsVal.varr subs)] = none := rfl
        have hla : List.lookup "AND" [("AND", JsVal.varr subs)]
            = some (JsVal.varr subs) := rfl
        have hk1 : hasKey [("AND", JsVal.varr subs)] "AND" = true := by
          simp [hasKey, hla]
        have hk0 : hasKey [("AND", JsVal.varr subs)] "OR" = false := by
          simp [hasKey, hlo]
        rw [hk0, hk1]
        simp only [Bool.false_or, if_true, hlo, hla]
        rw [show jsOr none (some (JsVal.varr subs)) = some (JsVal.varr subs) from rfl]
        simp only [truthyOpt, Bool.false_eq_true, if_false]
        have := hcompB
        rw [show (⟨foldA.index, [], []⟩ : WhereState).index = foldA.index from rfl] at this
        rw [this]
        simp
    unfold createWhereClause
    dsimp only
    rw [hstage1b, hstage2b]
    simp [intercalate_single]
  -- assemble
  have hCombined : createWhereClause (implicit ++ [(gk, JsVal.varr subs)]) start ct un
      = (" WHERE " ++ (String.intercalate " AND " foldA.whereParts ++ " AND " ++ g),
         foldA.values ++ refList.1.values, refList.1.index) := by
    unfold createWhereClause
    dsimp only
    rw [hstage1, hstage2]
    have hne2 : (foldA.whereParts ++ [g]).isEmpty = false := by
      cases hp : foldA.whereParts ++ [g]
      · exact absurd (List.append_eq_nil.mp hp).2 (by simp)
      · rfl
    simp only [hne2, Bool.false_eq_true, if_false]
    rw [intercalate_append_single _ _ hfoldNe]
  rw [hT1, hT2, hCombined]
  refine ⟨g, rfl, ?_, rfl, rfl⟩
  simp only [hfoldEmpty, Bool.false_eq_true, if_false]
  simp only [strAppend_assoc]

/-- Witness for the C8 amended theorem: one implicit leaf (`name =`)
followed by an `OR` group with one leaf child, compiled for pg at
start index 1. -/
theorem implicit_and_group_composition_witness :
    ∃ g : String,
      (createWhereClause [("OR", .varr [JsVal.vobj [("status",
          JsVal.vobj [("operator", JsVal.vstr "="), ("value", JsVal.vstr "a")])]])]
        (createWhereClause [("name", JsVal.vobj [("operator", JsVal.vstr "="),
          ("value", JsVal.vstr "Bob")])] 1 DBClients.pg false).2.2
        DBClients.pg false).1 = " WHERE " ++ g ∧
      (createWhereClause ([("name", JsVal.vobj [("operator", JsVal.vstr "="),
          ("value", JsVal.vstr "Bob")])] ++ [("OR", .varr [JsVal.vobj [("status",
          JsVal.vobj [("operator", JsVal.vstr "="), ("value", JsVal.vstr "a")])]])])
          1 DBClients.pg false).1
        = (createWhereClause [("name", JsVal.vobj [("operator", JsVal.vstr "="),
            ("value", JsVal.vstr "Bob")])] 1 DBClients.pg false).1 ++ " AND " ++ g ∧
      (createWhereClause ([("name", JsVal.vobj [("operator", JsVal.vstr "="),
          ("value", JsVal.vstr "Bob")])] ++ [("OR", .varr [JsVal.vobj [("status",
          JsVal.vobj [("operator", JsVal.vstr "="), ("value", JsVal.vstr "a")])]])])
          1 DBClients.pg false).2.1
        = (createWhereClause [("name", JsVal.vobj [("operator", JsVal.vstr "="),
            ("value", JsVal.vstr "Bob")])] 1 DBClients.pg false).2.1
          ++ (createWhereClause [("OR", .varr [JsVal.vobj [("status",
                JsVal.vobj [("operator", JsVal.vstr "="), ("value", JsVal.vstr "a")])]])]
              (createWhereClause [("name", JsVal.vobj [("operator", JsVal.vstr "="),
                ("value", JsVal.vstr "Bob")])] 1 DBClients.pg false).2.2
              DBClients.pg false).2.1 ∧
      (createWhereClause ([("name", JsVal.vobj [("operator", JsVal.vstr "="),
          ("value", JsVal.vstr "Bob")])] ++ [("OR", .varr [JsVal.vobj [("status",
          JsVal.vobj [("operator", JsVal.vstr "="), ("value", JsVal.vstr "a")])]])])
          1 DBClients.pg false).2.2
        = (createWhereClause [("OR", .varr [JsVal.vobj [("status",
              JsVal.vobj [("operator", JsVal.vstr "="), ("value", JsVal.vstr "a")])]])]
            (createWhereClause [("name", JsVal.vobj [("operator", JsVal.vstr "="),
              ("value", JsVal.vstr "Bob")])] 1 DBClients.pg false).2.2
            DBClients.pg false).2.2 :=
  implicit_and_group_composition
    [("name", JsVal.vobj [("operator", JsVal.vstr "="), ("value", JsVal.vstr "Bob")])]
    "OR"
    [JsVal.vobj [("status", JsVal.vobj [("operator", JsVal.vstr "="),
      ("value", JsVal.vstr "a")])]]
    1 DBClients.pg false
    (by decide) (Or.inl rfl) (by decide) (List.cons_ne_nil _ _)

/-- Witness for C5's amended claim at concrete inputs. -/
theorem set_operator_total_compilation_witness :
    createWhereClause [("tags", .vobj [("operator", .vstr "NOT IN"), ("value", .vstr "x")])]
      2 .mysql false
      = (" WHERE " ++ "tags" ++ " " ++ "NOT IN" ++ " " ++ "?", [.vstr "x"], 3) ∧
    (createWhereClause
        [("a", .vobj [("operator", .vstr "BETWEEN"), ("value", .varr [.vnum 7])])]
        4 .pg false).2
      = ([.vnum 7], 5) :=
  ⟨set_operator_total_compilation.1 "tags" "NOT IN" (.vstr "x") 2 .mysql
    (Or.inr (Or.inl rfl)) rfl (by decide) (by decide) (by decide),
   set_operator_total_compilation.2.1 "a" [.vnum 7] 4 (by decide) (by decide) (by decide)⟩

/-! ## Value-scrubbing congruences: the emitted SQL text depends only on
the scrub of the inputs, i.e. on their shape, never on the bound values. -/

/-- A constant map depends only on the list length. -/
theorem map_const_of_length {α β : Type} (b : β) :
    ∀ (l1 l2 : List α), l1.length = l2.length →
      l1.map (fun _ => b) = l2.map (fun _ => b) := by
  intro l1
  induction l1 with
  | nil =>
    intro l2 h
    cases l2 with
    | nil => rfl
    | cons c t => simp at h
  | cons a t ih =>
    intro l2 h
    cases l2 with
    | nil => simp at h
    | cons c t2 =>
      simp only [List.length_cons, Nat.succ.injEq] at h
      simp only [List.map_cons]
      rw [ih t2 h]

/-- An element-blind `mapIdx` depends only on the list length. -/
theorem mapIdx_const_of_length {α β : Type} :
    ∀ (l1 : List α) (f : Nat → β) (l2 : List α), l1.length = l2.length →
      l1.mapIdx (fun i _ => f i) = l2.mapIdx (fun i _ => f i) := by
  intro l1
  induction l1 with
  | nil =>
    intro f l2 h
    cases l2 with
    | nil => rfl
    | cons c t => simp at h
  | cons a t ih =>
    intro f l2 h
    cases l2 with
    | nil => simp at h
    | cons c t2 =>
      simp only [List.length_cons, Nat.succ.injEq] at h
      simp only [List.mapIdx_cons]
      rw [ih (fun i => f (i + 1)) t2 h]

/-- Scrubbing value fields leaves every other field readable unchanged. -/
theorem lookup_scrubValueFields_ne (k : String) (hk : k ≠ "value") :
    ∀ fields : List (String × JsVal),
      List.lookup k (scrubValueFields fields) = List.lookup k fields := by
  intro fields
  induction fields with
  | nil => rfl
  | cons kv t ih =>
    obtain ⟨k1, v1⟩ := kv
    show List.lookup k ((if k1 = "value" then (k1, scrubVal v1) else (k1, v1))
      :: scrubValueFields t) = _
    by_cases hh : k1 = "value"
    · rw [if_pos hh]
      have hkk : (k == k1) = false := by
        rw [beq_eq_false_iff_ne]
        rw [hh]
        exact hk
      simp only [List.lookup, hkk]
      exact ih
    · rw [if_neg hh]
      cases hkk : k == k1 with
      | true => simp only [List.lookup, hkk]
      | false =>
        simp only [List.lookup, hkk]
        exact ih

/-- Scrubbing value fields scrubs exactly the read `value` payload. -/
theorem lookup_scrubValueFields_value :
    ∀ fields : List (String × JsVal),
      List.lookup "value" (scrubValueFields fields)
        = (List.lookup "value" fields).map scrubVal := by
  intro fields
  induction fields with
  | nil => rfl
  | cons kv t ih =>
    obtain ⟨k1, v1⟩ := kv
    show List.lookup "value" ((if k1 = "value" then (k1, scrubVal v1) else (k1, v1))
      :: scrubValueFields t) = _
    by_cases hh : k1 = "value"
    · rw [if_pos hh]
      have hkk : ("value" == k1) = true := by
        rw [beq_iff_eq]
        exact hh.symm
      simp only [List.lookup, hkk, Option.map_some']
    · rw [if_neg hh]
      have hkk : ("value" == k1) = false := by
        rw [beq_eq_false_iff_ne]
        exact fun h => hh h.symm
      simp only [List.lookup, hkk]
      exact ih

/-- Top-level scrubbing is keywise: every lookup is mapped. -/
theorem lookup_scrubConds (k : String) :
    ∀ conds : List (String × JsVal),
      List.lookup k (scrubConds conds)
        = (List.lookup k conds).map scrubEntryVal := by
  intro conds
  induction conds with
  | nil => rfl
  | cons kv t ih =>
    obtain ⟨k1, v1⟩ := kv
    show List.lookup k ((k1, scrubEntryVal v1) :: scrubConds t) = _
    cases hkk : k == k1 with
    | true => simp only [List.lookup, hkk, Option.map_some']
    | false =>
      simp only [List.lookup, hkk]
      exact ih

/-- Scrubbing never adds or removes keys. -/
theorem hasKey_scrubConds (k : String) (conds : List (String × JsVal)) :
    hasKey (scrubConds conds) k = hasKey conds k := by
  unfold hasKey
  rw [lookup_scrubConds]
  cases List.lookup k conds <;> rfl

/-- Scrubbing a leaf keeps it an object. -/
theorem scrubCondition_vobj_shape (fields : List (String × JsVal)) :
    ∃ gs, scrubCondition (.vobj fields) = JsVal.vobj gs := by
  unfold scrubCondition
  cases h1 : List.lookup "operator" fields with
  | none => exact ⟨fields, by simp [h1]⟩
  | some w =>
    cases w with
    | vstr op =>
      cases h2 : List.lookup "value" fields with
      | none => exact ⟨fields, by simp [h1, h2]⟩
      | some v =>
        by_cases h3 : (decide (op = "NOT EXISTS") && (asStr v).isSome) = true
        · exact ⟨fields, by simp only [h1, h2]; rw [if_pos h3]⟩
        · exact ⟨scrubValueFields fields, by simp only [h1, h2]; rw [if_neg h3]⟩
    | vnum n => exact ⟨fields, by simp [h1]⟩
    | vbool b => exact ⟨fields, by simp [h1]⟩
    | vnull => exact ⟨fields, by simp [h1]⟩
    | varr xs => exact ⟨fields, by simp [h1]⟩
    | vobj gs => exact ⟨fields, by simp [h1]⟩

/-- Scrubbing a top-level entry keeps truthiness and arrayness. -/
theorem scrubEntryVal_shape (v : JsVal) :
    truthy (scrubEntryVal v) = truthy v ∧
    (∀ subs, v = .varr subs → scrubEntryVal v = .varr (subs.map scrubSub)) ∧
    (isArr v = false → isArr (scrubEntryVal v) = false) := by
  cases v with
  | vstr s => exact ⟨rfl, ⟨fun _ h => by simp at h, fun _ => rfl⟩⟩
  | vnum n => exact ⟨rfl, ⟨fun _ h => by simp at h, fun _ => rfl⟩⟩
  | vbool b => exact ⟨rfl, ⟨fun _ h => by simp at h, fun _ => rfl⟩⟩
  | vnull => exact ⟨rfl, ⟨fun _ h => by simp at h, fun _ => rfl⟩⟩
  | varr subs =>
    refine ⟨rfl, ⟨fun s2 h => ?_, fun h => by simp [isArr] at h⟩⟩
    cases h
    rfl
  | vobj fields =>
    obtain ⟨gs, hgs⟩ := scrubCondition_vobj_shape fields
    have he : scrubEntryVal (JsVal.vobj fields) = JsVal.vobj gs := hgs
    exact ⟨by rw [he]; rfl, ⟨fun _ h => by simp at h, fun _ => by rw [he]; rfl⟩⟩

/-- The placeholder list and index move depend only on the array length. -/
theorem arrayPlaceholders_congr (ct : DBClients) :
    ∀ (l1 l2 : List JsVal) (i : Nat), l1.length = l2.length →
      arrayPlaceholders ct l1 i = arrayPlaceholders ct l2 i := by
  intro l1
  induction l1 with
  | nil =>
    intro l2 i h
    cases l2 with
    | nil => rfl
    | cons c t => simp at h
  | cons a t ih =>
    intro l2 i h
    cases l2 with
    | nil => simp at h
    | cons c t2 =>
      simp only [List.length_cons, Nat.succ.injEq] at h
      cases ct with
      | pg => simp only [arrayPlaceholders, ih t2 (i + 1) h]
      | mysql => simp only [arrayPlaceholders, ih t2 i h]

/-- Core of the leaf scrub congruence: once a leaf dispatches past the
NOT EXISTS test on both sides, scrubbing its `value` payload changes
neither the emitted part nor the index move. -/
theorem leafOut_scrub_core (ct : DBClients) (un : Bool) (key op : String)
    (fields : List (String × JsVal)) (v : JsVal) (i : Nat)
    (h1 : List.lookup "operator" fields = some (.vstr op))
    (h2 : List.lookup "value" fields = some v)
    (hneO : (if op = "NOT EXISTS" then asStr v else none) = none)
    (hneS : (if op = "NOT EXISTS" then asStr (scrubVal v) else none) = none) :
    (leafOut ct un key (.vobj (scrubValueFields fields)) i).index
      = (leafOut ct un key (.vobj fields) i).index ∧
    (leafOut ct un key (.vobj (scrubValueFields fields)) i).whereParts
      = (leafOut ct un key (.vobj fields) i).whereParts := by
  have h1' : List.lookup "operator" (scrubValueFields fields) = some (JsVal.vstr op) := by
    rw [lookup_scrubValueFields_ne "operator" (by decide) fields]
    exact h1
  have h2' : List.lookup "value" (scrubValueFields fields) = some (scrubVal v) := by
    rw [lookup_scrubValueFields_value fields, h2]
    rfl
  by_cases hnull : strIncludes op "NULL" = true
  · rw [leafOut_null ct un key op (scrubValueFields fields) (scrubVal v) i h1' h2'
        hneS hnull,
      leafOut_null ct un key op fields v i h1 h2 hneO hnull]
    exact ⟨rfl, rfl⟩
  · cases v with
    | varr elems =>
      have h2arr : List.lookup "value" (scrubValueFields fields)
          = some (JsVal.varr (elems.map fun _ => JsVal.vnull)) := h2'
      rw [leafOut_array ct un key op (scrubValueFields fields)
          (elems.map fun _ => JsVal.vnull) i h1' h2arr hnull,
        leafOut_array ct un key op fields elems i h1 h2 hnull,
        arrayPlaceholders_congr ct (elems.map fun _ => JsVal.vnull) elems i (by simp)]
      exact ⟨rfl, rfl⟩
    | vstr s =>
      rw [leafOut_scalar ct un key op (scrubValueFields fields)
          (scrubVal (JsVal.vstr s)) i h1' h2' hneS hnull rfl,
        leafOut_scalar ct un key op fields (JsVal.vstr s) i h1 h2 hneO hnull rfl]
      exact ⟨rfl, rfl⟩
    | vnum n =>
      rw [leafOut_scalar ct un key op (scrubValueFields fields)
          (scrubVal (JsVal.vnum n)) i h1' h2' hneS hnull rfl,
        leafOut_scalar ct un key op fields (JsVal.vnum n) i h1 h2 hneO hnull rfl]
      exact ⟨rfl, rfl⟩
    | vbool b =>
      rw [leafOut_scalar ct un key op (scrubValueFields fields)
          (scrubVal (JsVal.vbool b)) i h1' h2' hneS hnull rfl,
        leafOut_scalar ct un key op fields (JsVal.vbool b) i h1 h2 hneO hnull rfl]
      exact ⟨rfl, rfl⟩
    | vnull =>
      rw [leafOut_scalar ct un key op (scrubValueFields fields)
          (scrubVal JsVal.vnull) i h1' h2' hneS hnull rfl,
        leafOut_scalar ct un key op fields JsVal.vnull i h1 h2 hneO hnull rfl]
      exact ⟨rfl, rfl⟩
    | vobj gs =>
      rw [leafOut_scalar ct un key op (scrubValueFields fields)
          (scrubVal (JsVal.vobj gs)) i h1' h2' hneS hnull rfl,
        leafOut_scalar ct un key op fields (JsVal.vobj gs) i h1 h2 hneO hnull rfl]
      exact ⟨rfl, rfl⟩

/-- Scrubbing a leaf condition changes neither the emitted part nor the
index move of `processCondition`. -/
theorem leafOut_scrub (ct : DBClients) (un : Bool) (key : String) (c : JsVal) (i : Nat) :
    (leafOut ct un key (scrubCondition c) i).index = (leafOut ct un key c i).index ∧
    (leafOut ct un key (scrubCondition c) i).whereParts
      = (leafOut ct un key c i).whereParts := by
  cases c with
  | vstr s => exact ⟨rfl, rfl⟩
  | vnum n => exact ⟨rfl, rfl⟩
  | vbool b => exact ⟨rfl, rfl⟩
  | vnull => exact ⟨rfl, rfl⟩
  | varr xs => exact ⟨rfl, rfl⟩
  | vobj fields =>
    cases h1 : List.lookup "operator" fields with
    | none =>
      rw [show scrubCondition (JsVal.vobj fields) = JsVal.vobj fields from by
        simp [scrubCondition, h1]]
      exact ⟨rfl, rfl⟩
    | some w =>
      cases w with
      | vstr op =>
        cases h2 : List.lookup "value" fields with
        | none =>
          rw [show scrubCondition (JsVal.vobj fields) = JsVal.vobj fields from by
            simp [scrubCondition, h1, h2]]
          exact ⟨rfl, rfl⟩
        | some v =>
          by_cases h3 : (decide (op = "NOT EXISTS") && (asStr v).isSome) = true
          · rw [show scrubCondition (JsVal.vobj fields) = JsVal.vobj fields from by
              simp only [scrubCondition, h1, h2]; rw [if_pos h3]]
            exact ⟨rfl, rfl⟩
          · rw [show scrubCondition (JsVal.vobj fields)
                = JsVal.vobj (scrubValueFields fields) from by
              simp only [scrubCondition, h1, h2]; rw [if_neg h3]]
            by_cases hnx : op = "NOT EXISTS"
            · have hvs : asStr v = none := by
                cases hv : asStr v with
                | none => rfl
                | some s =>
                  exfalso
                  apply h3
                  rw [hv]
                  simp [hnx]
              have hvs2 : asStr (scrubVal v) = none := by
                cases v with
                | vstr s => simp [asStr] at hvs
                | vnum n => rfl
                | vbool b => rfl
                | vnull => rfl
                | varr xs => rfl
                | vobj gs => rfl
              exact leafOut_scrub_core ct un key op fields v i h1 h2
                (by rw [if_pos hnx, hvs]) (by rw [if_pos hnx, hvs2])
            · exact leafOut_scrub_core ct un key op fields v i h1 h2
                (if_neg hnx) (if_neg hnx)
      | vnum n =>
        rw [show scrubCondition (JsVal.vobj fields) = JsVal.vobj fields from by
          simp [scrubCondition, h1]]
        exact ⟨rfl, rfl⟩
      | vbool b =>
        rw [show scrubCondition (JsVal.vobj fields) = JsVal.vobj fields from by
          simp [scrubCondition, h1]]
        exact ⟨rfl, rfl⟩
      | vnull =>
        rw [show scrubCondition (JsVal.vobj fields) = JsVal.vobj fields from by
          simp [scrubCondition, h1]]
        exact ⟨rfl, rfl⟩
      | varr xs =>
        rw [show scrubCondition (JsVal.vobj fields) = JsVal.vobj fields from by
          simp [scrubCondition, h1]]
        exact ⟨rfl, rfl⟩
      | vobj gs =>
        rw [show scrubCondition (JsVal.vobj fields) = JsVal.vobj fields from by
          simp [scrubCondition, h1]]
        exact ⟨rfl, rfl⟩

/-- `processCondition_append` for an arbitrary incoming state. -/
theorem processCondition_state (ct : DBClients) (un : Bool) (key : String) (c : JsVal)
    (st : WhereState) :
    processCondition ct un key c st
      = ⟨(leafOut ct un key c st.index).index,
         st.whereParts ++ (leafOut ct un key c st.index).whereParts,
         st.values ++ (leafOut ct un key c st.index).values⟩ := by
  obtain ⟨i, ps, vs⟩ := st
  exact processCondition_append ct un key c i ps vs

/-- State-level scrub congruence for one leaf step. -/
theorem processCondition_scrub_st (ct : DBClients) (un : Bool) (key : String) (c : JsVal)
    (st1 st2 : WhereState) (hi : st1.index = st2.index)
    (hp : st1.whereParts = st2.whereParts) :
    (processCondition ct un key (scrubCondition c) st1).index
      = (processCondition ct un key c st2).index ∧
    (processCondition ct un key (scrubCondition c) st1).whereParts
      = (processCondition ct un key c st2).whereParts := by
  rw [processCondition_state, processCondition_state, hi, hp]
  obtain ⟨hA, hB⟩ := leafOut_scrub ct un key c st2.index
  constructor
  · show (leafOut ct un key (scrubCondition c) st2.index).index
      = (leafOut ct un key c st2.index).index
    exact hA
  · show st2.whereParts ++ (leafOut ct un key (scrubCondition c) st2.index).whereParts
      = st2.whereParts ++ (leafOut ct un key c st2.index).whereParts
    rw [hB]

/-- `whereParts.pop()` respects text-equal states. -/
theorem popPart_scrub (st1 st2 : WhereState) (hi : st1.index = st2.index)
    (hp : st1.whereParts = st2.whereParts) :
    (popPart st1).1.index = (popPart st2).1.index ∧
    (popPart st1).1.whereParts = (popPart st2).1.whereParts ∧
    (popPart st1).2 = (popPart st2).2 := by
  refine ⟨hi, ?_, ?_⟩
  · show st1.whereParts.dropLast = st2.whereParts.dropLast
    rw [hp]
  · show st1.whereParts.getLast? = st2.whereParts.getLast?
    rw [hp]

/-- One composite child respects scrubbing. -/
theorem processSub_scrub (ct : DBClients) (un : Bool) (sub : JsVal)
    (st1 st2 : WhereState) (hi : st1.index = st2.index)
    (hp : st1.whereParts = st2.whereParts) :
    (processSub ct un st1 (scrubSub sub)).1.index
      = (processSub ct un st2 sub).1.index ∧
    (processSub ct un st1 (scrubSub sub)).1.whereParts
      = (processSub ct un st2 sub).1.whereParts ∧
    (processSub ct un st1 (scrubSub sub)).2 = (processSub ct un st2 sub).2 := by
  cases sub with
  | vobj fs =>
    cases fs with
    | nil => exact popPart_scrub st1 st2 hi hp
    | cons kv rest =>
      obtain ⟨k, c⟩ := kv
      obtain ⟨hA, hB⟩ := processCondition_scrub_st ct un k c st1 st2 hi hp
      exact popPart_scrub _ _ hA hB
  | vstr s => exact ⟨hi, hp, rfl⟩
  | vnum n => exact ⟨hi, hp, rfl⟩
  | vbool b => exact ⟨hi, hp, rfl⟩
  | vnull => exact ⟨hi, hp, rfl⟩
  | varr xs => exact ⟨hi, hp, rfl⟩

/-- The whole composite map pass respects scrubbing: text-equal states in,
text-equal states and identical raw part lists out. -/
theorem processSubList_scrub (ct : DBClients) (un : Bool) :
    ∀ (subs : List JsVal) (st1 st2 : WhereState), st1.index = st2.index →
      st1.whereParts = st2.whereParts →
      (processSubList ct un (subs.map scrubSub) st1).1.index
        = (processSubList ct un subs st2).1.index ∧
      (processSubList ct un (subs.map scrubSub) st1).1.whereParts
        = (processSubList ct un subs st2).1.whereParts ∧
      (processSubList ct un (subs.map scrubSub) st1).2
        = (processSubList ct un subs st2).2 := by
  intro subs
  induction subs with
  | nil =>
    intro st1 st2 hi hp
    exact ⟨hi, hp, rfl⟩
  | cons s t ih =>
    intro st1 st2 hi hp
    obtain ⟨hA, hB, hC⟩ := processSub_scrub ct un s st1 st2 hi hp
    obtain ⟨hD, hE, hF⟩ := ih (processSub ct un st1 (scrubSub s)).1
      (processSub ct un st2 s).1 hA hB
    refine ⟨hD, hE, ?_⟩
    show (processSub ct un st1 (scrubSub s)).2
        :: (processSubList ct un (t.map scrubSub) (processSub ct un st1 (scrubSub s)).1).2
      = (processSub ct un st2 s).2
        :: (processSubList ct un t (processSub ct un st2 s).1).2
    rw [hC, hF]

/-- A composite group respects scrubbing. -/
theorem processComposite_scrub (ct : DBClients) (un : Bool) (lop : String)
    (subs : List JsVal) (st1 st2 : WhereState) (hi : st1.index = st2.index)
    (hp : st1.whereParts = st2.whereParts) :
    (processComposite ct un lop (subs.map scrubSub) st1).index
      = (processComposite ct un lop subs st2).index ∧
    (processComposite ct un lop (subs.map scrubSub) st1).whereParts
      = (processComposite ct un lop subs st2).whereParts := by
  obtain ⟨hA, hB, hC⟩ := processSubList_scrub ct un subs st1 st2 hi hp
  unfold processComposite
  refine ⟨hA, ?_⟩
  show (processSubList ct un (subs.map scrubSub) st1).1.whereParts
      ++ ["(" ++ String.intercalate (" " ++ lop ++ " ")
            (keepTruthy (processSubList ct un (subs.map scrubSub) st1).2) ++ ")"]
    = (processSubList ct un subs st2).1.whereParts
      ++ ["(" ++ String.intercalate (" " ++ lop ++ " ")
            (keepTruthy (processSubList ct un subs st2).2) ++ ")"]
  rw [hB, hC]

/-- The top-level fold over implicit entries respects scrubbing. -/
theorem foldl_scrub (ct : DBClients) (un : Bool) :
    ∀ (conds : List (String × JsVal)) (st1 st2 : WhereState), st1.index = st2.index →
      st1.whereParts = st2.whereParts →
      ((scrubConds conds).foldl
          (fun st kv => processCondition ct un kv.1 kv.2 st) st1).index
        = (conds.foldl (fun st kv => processCondition ct un kv.1 kv.2 st) st2).index ∧
      ((scrubConds conds).foldl
          (fun st kv => processCondition ct un kv.1 kv.2 st) st1).whereParts
        = (conds.foldl (fun st kv => processCondition ct un kv.1 kv.2 st) st2).whereParts := by
  intro conds
  induction conds with
  | nil =>
    intro st1 st2 hi hp
    exact ⟨hi, hp⟩
  | cons kv t ih =>
    intro st1 st2 hi hp
    obtain ⟨k, v⟩ := kv
    show ((scrubConds t).foldl _ (processCondition ct un k (scrubEntryVal v) st1)).index
        = _ ∧ _
    cases v with
    | varr l =>
      exact ih (processCondition ct un k (JsVal.varr (l.map scrubSub)) st1)
        (processCondition ct un k (JsVal.varr l) st2) hi hp
    | vstr s =>
      obtain ⟨hA, hB⟩ := processCondition_scrub_st ct un k (JsVal.vstr s) st1 st2 hi hp
      exact ih _ _ hA hB
    | vnum n =>
      obtain ⟨hA, hB⟩ := processCondition_scrub_st ct un k (JsVal.vnum n) st1 st2 hi hp
      exact ih _ _ hA hB
    | vbool b =>
      obtain ⟨hA, hB⟩ := processCondition_scrub_st ct un k (JsVal.vbool b) st1 st2 hi hp
      exact ih _ _ hA hB
    | vnull =>
      obtain ⟨hA, hB⟩ := processCondition_scrub_st ct un k JsVal.vnull st1 st2 hi hp
      exact ih _ _ hA hB
    | vobj fs =>
      obtain ⟨hA, hB⟩ := processCondition_scrub_st ct un k (JsVal.vobj fs) st1 st2 hi hp
      exact ih _ _ hA hB

/-- The JOINS phase respects scrubbing. -/
theorem processJoinsBlock_scrub (ct : DBClients) (un : Bool)
    (conds : List (String × JsVal)) (st1 st2 : WhereState)
    (hi : st1.index = st2.index) (hp : st1.whereParts = st2.whereParts) :
    (processJoinsBlock ct un (scrubConds conds) st1).index
      = (processJoinsBlock ct un conds st2).index ∧
    (processJoinsBlock ct un (scrubConds conds) st1).whereParts
      = (processJoinsBlock ct un conds st2).whereParts := by
  unfold processJoinsBlock
  dsimp only
  rw [hasKey_scrubConds, lookup_scrubConds "JOINS" conds]
  by_cases hk : hasKey conds "JOINS" = true
  · rw [if_pos hk, if_pos hk]
    cases hl : List.lookup "JOINS" conds with
    | none => exact ⟨hi, hp⟩
    | some v =>
      simp only [Option.map_some']
      have htr : truthyOpt (some (scrubEntryVal v)) = truthyOpt (some v) := by
        show truthy (scrubEntryVal v) = truthy v
        exact (scrubEntryVal_shape v).1
      simp only [htr]
      cases v with
      | varr subs =>
        rw [(scrubEntryVal_shape (JsVal.varr subs)).2.1 subs rfl]
        exact processComposite_scrub ct un _ subs st1 st2 hi hp
      | vstr s => exact ⟨hi, hp⟩
      | vnum n => exact ⟨hi, hp⟩
      | vbool b => exact ⟨hi, hp⟩
      | vnull => exact ⟨hi, hp⟩
      | vobj fs =>
        obtain ⟨gs, hgs⟩ := scrubCondition_vobj_shape fs
        rw [show scrubEntryVal (JsVal.vobj fs) = JsVal.vobj gs from hgs]
        exact ⟨hi, hp⟩
  · rw [if_neg hk, if_neg hk]
    exact foldl_scrub ct un conds st1 st2 hi hp

/-- The OR/AND phase respects scrubbing. -/
theorem processOrAndBlock_scrub (ct : DBClients) (un : Bool)
    (conds : List (String × JsVal)) (st1 st2 : WhereState)
    (hi : st1.index = st2.index) (hp : st1.whereParts = st2.whereParts) :
    (processOrAndBlock ct un (scrubConds conds) st1).index
      = (processOrAndBlock ct un conds st2).index ∧
    (processOrAndBlock ct un (scrubConds conds) st1).whereParts
      = (processOrAndBlock ct un conds st2).whereParts := by
  unfold processOrAndBlock
  dsimp only
  rw [hasKey_scrubConds, hasKey_scrubConds, lookup_scrubConds "OR" conds,
    lookup_scrubConds "AND" conds]
  by_cases hk : (hasKey conds "OR" || hasKey conds "AND") = true
  · rw [if_pos hk, if_pos hk]
    cases hO : List.lookup "OR" conds with
    | some v =>
      simp only [Option.map_some']
      have htr : truthyOpt (some (scrubEntryVal v)) = truthyOpt (some v) := by
        show truthy (scrubEntryVal v) = truthy v
        exact (scrubEntryVal_shape v).1
      simp only [htr]
      by_cases htv : truthyOpt (some v) = true
      · rw [show jsOr (some (scrubEntryVal v))
              ((List.lookup "AND" conds).map scrubEntryVal) = some (scrubEntryVal v) from by
            unfold jsOr
            rw [htr, if_pos htv],
          show jsOr (some v) (List.lookup "AND" conds) = some v from by
            unfold jsOr
            rw [if_pos htv]]
        cases v with
        | varr subs =>
          rw [(scrubEntryVal_shape (JsVal.varr subs)).2.1 subs rfl]
          exact processComposite_scrub ct un _ subs st1 st2 hi hp
        | vstr s => exact ⟨hi, hp⟩
        | vnum n => exact ⟨hi, hp⟩
        | vbool b => exact ⟨hi, hp⟩
        | vnull => exact ⟨hi, hp⟩
        | vobj fs =>
          obtain ⟨gs, hgs⟩ := scrubCondition_vobj_shape fs
          rw [show scrubEntryVal (JsVal.vobj fs) = JsVal.vobj gs from hgs]
          exact ⟨hi, hp⟩
      · rw [show jsOr (some (scrubEntryVal v))
              ((List.lookup "AND" conds).map scrubEntryVal)
              = (List.lookup "AND" conds).map scrubEntryVal from by
            unfold jsOr
            rw [htr, if_neg htv],
          show jsOr (some v) (List.lookup "AND" conds) = List.lookup "AND" conds from by
            unfold jsOr
            rw [if_neg htv]]
        cases hA : List.lookup "AND" conds with
        | none => exact ⟨hi, hp⟩
        | some w =>
          simp only [Option.map_some']
          cases w with
          | varr subs =>
            rw [(scrubEntryVal_shape (JsVal.varr subs)).2.1 subs rfl]
            exact processComposite_scrub ct un _ subs st1 st2 hi hp
          | vstr s => exact ⟨hi, hp⟩
          | vnum n => exact ⟨hi, hp⟩
          | vbool b => exact ⟨hi, hp⟩
          | vnull => exact ⟨hi, hp⟩
          | vobj fs =>
            obtain ⟨gs, hgs⟩ := scrubCondition_vobj_shape fs
            rw [show scrubEntryVal (JsVal.vobj fs) = JsVal.vobj gs from hgs]
            exact ⟨hi, hp⟩
    | none =>
      simp only [Option.map_none']
      rw [show jsOr none ((List.lookup "AND" conds).map scrubEntryVal)
            = (List.lookup "AND" conds).map scrubEntryVal from rfl,
        show jsOr none (List.lookup "AND" conds) = List.lookup "AND" conds from rfl]
      cases hA : List.lookup "AND" conds with
      | none => exact ⟨hi, hp⟩
      | some w =>
        simp only [Option.map_some']
        cases w with
        | varr subs =>
          rw [(scrubEntryVal_shape (JsVal.varr subs)).2.1 subs rfl]
          exact processComposite_scrub ct un _ subs st1 st2 hi hp
        | vstr s => exact ⟨hi, hp⟩
        | vnum n => exact ⟨hi, hp⟩
        | vbool b => exact ⟨hi, hp⟩
        | vnull => exact ⟨hi, hp⟩
        | vobj fs =>
          obtain ⟨gs, hgs⟩ := scrubCondition_vobj_shape fs
          rw [show scrubEntryVal (JsVal.vobj fs) = JsVal.vobj gs from hgs]
          exact ⟨hi, hp⟩
  · rw [if_neg hk, if_neg hk]
    exact ⟨hi, hp⟩

/-- The clause text and the continuation index of `createWhereClause`
depend only on the scrub of the conditions object: bound values never
reach the SQL text. -/
theorem createWhereClause_scrub (conds : List (String × JsVal)) (i : Nat)
    (ct : DBClients) (un : Bool) :
    (createWhereClause (scrubConds conds) i ct un).1
      = (createWhereClause conds i ct un).1 ∧
    (createWhereClause (scrubConds conds) i ct un).2.2
      = (createWhereClause conds i ct un).2.2 := by
  unfold createWhereClause
  dsimp only
  obtain ⟨h1i, h1p⟩ := processJoinsBlock_scrub ct un conds ⟨i, [], []⟩ ⟨i, [], []⟩ rfl rfl
  obtain ⟨h2i, h2p⟩ := processOrAndBlock_scrub ct un conds _ _ h1i h1p
  refine ⟨?_, h2i⟩
  rw [h2p]

/-- Two conditions objects with the same scrub (same shape, possibly
different bound values) compile to the same text and continuation index. -/
theorem createWhereClause_congr (w1 w2 : List (String × JsVal)) (i : Nat)
    (ct : DBClients) (un : Bool) (h : scrubConds w1 = scrubConds w2) :
    (createWhereClause w1 i ct un).1 = (createWhereClause w2 i ct un).1 ∧
    (createWhereClause w1 i ct un).2.2 = (createWhereClause w2 i ct un).2.2 := by
  have a1 := createWhereClause_scrub w1 i ct un
  have a2 := createWhereClause_scrub w2 i ct un
  rw [h] at a1
  exact ⟨a1.1.symm.trans a2.1, a1.2.symm.trans a2.2⟩

/-- C1 amended: every repository operation's SQL text depends only on the
shape of the caller-supplied values, with the single exception of
`update`'s target id.  Two calls differing only in bound values — where
conditions with the same scrub, data rows with the same keys, any ids,
uuids or timestamps — produce byte-identical SQL text for the where
compiler, findFirst, findMany, insert, insertMany (both the INSERT and
the mysql re-fetch), update at a fixed id, updateMany, deleteOne,
deleteMany and joins; `update` splices the id itself into the text
(`WHERE id = '...'`, see the counterexample), so its byte-identity holds
only at a fixed id. -/
theorem values_bound_not_interpolated
    (ct : DBClients) (un : Bool) (tableName field : String)
    (select returning groupBy : List String) (orderBy : List OrderByItem)
    (limit offset : Option Nat) (joins : List JoinClause) (perm : Bool)
    (start : Nat) (id id1 id2 u1 u2 : String) (ts1 ts2 : JsVal)
    (g1 g2 : Nat → String)
    (w1 w2 d1 d2 : List (String × JsVal))
    (dd1 dd2 : List (List (String × JsVal)))
    (ids1 ids2 : List String)
    (hw : scrubConds w1 = scrubConds w2)
    (hk : d1.map Prod.fst = d2.map Prod.fst)
    (hh : (dd1.headD []).map Prod.fst = (dd2.headD []).map Prod.fst)
    (hl : dd1.length = dd2.length)
    (hids : ids1.length = ids2.length) :
    (createWhereClause w1 start ct un).1 = (createWhereClause w2 start ct un).1 ∧
    (findFirstQuery tableName select w1 groupBy orderBy ct).1
      = (findFirstQuery tableName select w2 groupBy orderBy ct).1 ∧
    (findManyQuery tableName select w1 groupBy orderBy limit offset ct un).1
      = (findManyQuery tableName select w2 groupBy orderBy limit offset ct un).1 ∧
    (insertQuery tableName u1 ts1 d1 ct returning).1
      = (insertQuery tableName u2 ts2 d2 ct returning).1 ∧
    (insertManyQuery tableName g1 ts1 dd1 ct returning).1
      = (insertManyQuery tableName g2 ts2 dd2 ct returning).1 ∧
    (insertManySelectMysql tableName returning ids1).1
      = (insertManySelectMysql tableName returning ids2).1 ∧
    (updateQuery tableName id d1 ct returning).1
      = (updateQuery tableName id d2 ct returning).1 ∧
    (updateManyQuery tableName d1 w1 ct returning).1
      = (updateManyQuery tableName d2 w2 ct returning).1 ∧
    (deleteOneQuery tableName id1 ct perm).1 = (deleteOneQuery tableName id2 ct perm).1 ∧
    (deleteManyQuery tableName ids1 field ct perm).1
      = (deleteManyQuery tableName ids2 field ct perm).1 ∧
    (joinsQuery tableName select joins w1 groupBy orderBy limit offset ct un).1
      = (joinsQuery tableName select joins w2 groupBy orderBy limit offset ct un).1 := by
  have hwc : ∀ (j : Nat) (b : Bool),
      (createWhereClause w1 j ct b).1 = (createWhereClause w2 j ct b).1 :=
    fun j b => (createWhereClause_congr w1 w2 j ct b hw).1
  have hlen_d : d1.length = d2.length := by
    have := congrArg List.length hk
    simpa using this
  refine ⟨hwc start un, ?_, ?_, ?_, ?_, ?_, ?_, ?_, ?_, ?_, ?_⟩
  · show findFirstSql (createSelectFields select ct) tableName
        (createWhereClause w1 1 ct false).1 (createGroupByClause groupBy)
        (createOrderByClause orderBy)
      = findFirstSql (createSelectFields select ct) tableName
        (createWhereClause w2 1 ct false).1 (createGroupByClause groupBy)
        (createOrderByClause orderBy)
    rw [hwc 1 false]
  · show findManySql (createSelectFields select ct) tableName
        (createWhereClause w1 1 ct un).1 (createGroupByClause groupBy)
        (createOrderByClause orderBy) (createLimitClause limit)
        (createOffsetClause offset)
      = findManySql (createSelectFields select ct) tableName
        (createWhereClause w2 1 ct un).1 (createGroupByClause groupBy)
        (createOrderByClause orderBy) (createLimitClause limit)
        (createOffsetClause offset)
    rw [hwc 1 un]
  · unfold insertQuery
    dsimp only
    rw [hk]
  · unfold insertManyQuery
    dsimp only
    rw [hh, hl]
  · unfold insertManySelectMysql
    dsimp only
    rw [map_const_of_length "?" ids1 ids2 hids]
  · unfold updateQuery
    dsimp only
    rw [hk]
  · unfold updateManyQuery
    dsimp only
    have hv : (d1.map Prod.snd).length = (d2.map Prod.snd).length := by
      simp [hlen_d]
    rw [hk, hv, hwc ((d2.map Prod.snd).length + 1) false]
  · unfold deleteOneQuery
    dsimp only
  · unfold deleteManyQuery
    dsimp only
    rw [mapIdx_const_of_length ids1 (fun index => "$" ++ toString (index + 1)) ids2 hids,
      map_const_of_length "?" ids1 ids2 hids]
  · unfold joinsQuery
    dsimp only
    rw [hwc 1 un]

/-- Witness for the C1 amended theorem: two call families differing only
in bound values (`A` vs `B` payloads, different ids, uuids, timestamps)
at concrete pg inputs. -/
theorem values_bound_not_interpolated_witness :
    (createWhereClause [("name", JsVal.vobj [("operator", JsVal.vstr "="),
        ("value", JsVal.vstr "A")])] 1 DBClients.pg false).1
      = (createWhereClause [("name", JsVal.vobj [("operator", JsVal.vstr "="),
          ("value", JsVal.vstr "B")])] 1 DBClients.pg false).1 ∧
    (findFirstQuery "t" [] [("name", JsVal.vobj [("operator", JsVal.vstr "="),
        ("value", JsVal.vstr "A")])] [] [] DBClients.pg).1
      = (findFirstQuery "t" [] [("name", JsVal.vobj [("operator", JsVal.vstr "="),
          ("value", JsVal.vstr "B")])] [] [] DBClients.pg).1 ∧
    (findManyQuery "t" [] [("name", JsVal.vobj [("operator", JsVal.vstr "="),
        ("value", JsVal.vstr "A")])] [] [] none none DBClients.pg false).1
      = (findManyQuery "t" [] [("name", JsVal.vobj [("operator", JsVal.vstr "="),
          ("value", JsVal.vstr "B")])] [] [] none none DBClients.pg false).1 ∧
    (insertQuery "t" "u" (JsVal.vnum 1) [("name", JsVal.vstr "A")] DBClients.pg []).1
      = (insertQuery "t" "v" (JsVal.vnum 2) [("name", JsVal.vstr "B")] DBClients.pg []).1 ∧
    (insertManyQuery "t" (fun _ => "x") (JsVal.vnum 1) [[("name", JsVal.vstr "A")]]
        DBClients.pg []).1
      = (insertManyQuery "t" (fun _ => "y") (JsVal.vnum 2) [[("name", JsVal.vstr "B")]]
          DBClients.pg []).1 ∧
    (insertManySelectMysql "t" [] ["a"]).1 = (insertManySelectMysql "t" [] ["b"]).1 ∧
    (updateQuery "t" "1" [("name", JsVal.vstr "A")] DBClients.pg []).1
      = (updateQuery "t" "1" [("name", JsVal.vstr "B")] DBClients.pg []).1 ∧
    (updateManyQuery "t" [("name", JsVal.vstr "A")]
        [("name", JsVal.vobj [("operator", JsVal.vstr "="), ("value", JsVal.vstr "A")])]
        DBClients.pg []).1
      = (updateManyQuery "t" [("name", JsVal.vstr "B")]
          [("name", JsVal.vobj [("operator", JsVal.vstr "="), ("value", JsVal.vstr "B")])]
          DBClients.pg []).1 ∧
    (deleteOneQuery "t" "a" DBClients.pg true).1
      = (deleteOneQuery "t" "b" DBClients.pg true).1 ∧
    (deleteManyQuery "t" ["a"] "f" DBClients.pg true).1
      = (deleteManyQuery "t" ["b"] "f" DBClients.pg true).1 ∧
    (joinsQuery "t" [] [] [("name", JsVal.vobj [("operator", JsVal.vstr "="),
        ("value", JsVal.vstr "A")])] [] [] none none DBClients.pg false).1
      = (joinsQuery "t" [] [] [("name", JsVal.vobj [("operator", JsVal.vstr "="),
          ("value", JsVal.vstr "B")])] [] [] none none DBClients.pg false).1 :=
  values_bound_not_interpolated DBClients.pg false "t" "f" [] [] [] [] none none []
    true 1 "1" "a" "b" "u" "v" (JsVal.vnum 1) (JsVal.vnum 2)
    (fun _ => "x") (fun _ => "y")
    [("name", JsVal.vobj [("operator", JsVal.vstr "="), ("value", JsVal.vstr "A")])]
    [("name", JsVal.vobj [("operator", JsVal.vstr "="), ("value", JsVal.vstr "B")])]
    [("name", JsVal.vstr "A")] [("name", JsVal.vstr "B")]
    [[("name", JsVal.vstr "A")]] [[("name", JsVal.vstr "B")]]
    ["a"] ["b"] rfl rfl rfl rfl rfl

end StarDB
